import Mathlib

/-!
Verification of the wsdl2go code generator (package `wsdlgo`, plus the
`wsdl` data model).  The definitions below are a shallow embedding of the
Go source: the WSDL document model, the generator's caches, and the code
emission pipeline (`encode` / `Encode`), with the writer modelled as a
list of emission events and Go maps modelled as insertion-ordered
association lists.  Where the Go runtime ranges over a map in an
unspecified order, the corresponding place in the model either sorts the
keys (as the source does for declarations) or is stated for an arbitrary
enumeration of the entries (the import block).
-/

namespace Wsdl2go

/-! ## Go maps as insertion-ordered association lists

A Go `map[string]V` is a finite map; iteration order is unspecified.
We keep entries in insertion order; `mapSet` overwrites in place like a
Go map assignment, `mapLookup` finds the unique binding.  Statements
about iteration-order (non)dependence quantify over permutations of
`mapKeys`.
-/

abbrev GoMap (α : Type) := List (String × α)

def mapSet (m : GoMap α) (k : String) (v : α) : GoMap α :=
  match m with
  | [] => [(k, v)]
  | (k', v') :: rest =>
    if k' = k then (k, v) :: rest else (k', v') :: mapSet rest k v

def mapLookup (m : GoMap α) (k : String) : Option α :=
  match m with
  | [] => none
  | (k', v) :: rest => if k' = k then some v else mapLookup rest k

def mapMem (m : GoMap α) (k : String) : Bool :=
  (mapLookup m k).isSome

def mapKeys (m : GoMap α) : List String :=
  m.map Prod.fst

/-! ## String helpers shared by the generator

All implemented by structural recursion over the character list so that
concrete runs reduce inside the kernel. -/

/-- Split at the first occurrence of `sep`, if any. -/
def splitFirst (sep : Char) : List Char → Option (List Char × List Char)
  | [] => none
  | c :: t =>
    if c = sep then some ([], t)
    else (splitFirst sep t).map (fun p => (c :: p.1, p.2))

/-- `strings.Split(s, sep)` for a one-character separator. -/
def splitAllAux (sep : Char) : List Char → List Char → List (List Char)
  | acc, [] => [acc.reverse]
  | acc, c :: t =>
    if c = sep then acc.reverse :: splitAllAux sep [] t
    else splitAllAux sep (c :: acc) t

def goSplitAll (sep : Char) (s : String) : List String :=
  (splitAllAux sep [] s.data).map String.mk

/-- `strings.TrimSpace`. -/
def goTrimSpace (s : String) : String :=
  String.mk
    (((s.data.dropWhile Char.isWhitespace).reverse.dropWhile Char.isWhitespace).reverse)

/-- `strings.SplitN(s, ":", 2)` keeping only the part after the first
colon, as done by `goEncoder.trimns`: drop the namespace prefix. -/
def trimns (s : String) : String :=
  match splitFirst ':' s.data with
  | none => s
  | some p => String.mk p.2

/-- `strings.Title`: upper-case every letter that follows a non-letter
(ASCII letters; the generator only feeds it identifiers). -/
def goTitle (s : String) : String :=
  let step : Bool × List Char → Char → Bool × List Char := fun (prevAlpha, acc) c =>
    (c.isAlpha, acc ++ [if c.isAlpha && !prevAlpha then c.toUpper else c])
  String.mk (s.data.foldl step (false, [])).2

/-- `strings.ToLower` restricted to ASCII, as used on type names. -/
def goToLower (s : String) : String := String.mk (s.data.map Char.toLower)

/-- `strings.Replace(s, ".", "", -1)`: remove every dot. -/
def removeDots (s : String) : String :=
  String.mk (s.data.filter (· ≠ '.'))

/-- Does the string start with the given character? -/
def startsWithChar (c : Char) (s : String) : Bool :=
  match s.data with
  | c' :: _ => c' = c
  | [] => false

/-- `strings.TrimPrefix(s, "*")`: drop one leading star if present. -/
def trimStar (s : String) : String :=
  match s.data with
  | '*' :: t => String.mk t
  | _ => s

/-- `strings.SplitN(s, " ", 2)`. -/
def goSplitN2 (s : String) : List String :=
  match splitFirst ' ' s.data with
  | none => [s]
  | some p => [String.mk p.1, String.mk p.2]

/-- Second component of `strings.SplitN(s, " ", 2)`.  Go indexes
`typ[1]` directly and would panic when there is no space; the theorems
only use inputs where the space is present. -/
def splitSnd (s : String) : String :=
  match goSplitN2 s with
  | [_, b] => b
  | _ => ""

/-- `strings.ToLower(n)[:1] + n[1:]`: lower-case the first byte.  Go
panics on the empty string; the model returns `""` there and the
theorems use non-empty port type names. -/
def lowerFirst (s : String) : String :=
  match s.data with
  | [] => ""
  | c :: rest => String.mk (c.toLower :: rest)

/-- `strconv.Quote` on the enumeration literals emitted by validators
(no escaping is needed for the values the theorems touch). -/
def goQuote (s : String) : String := "\"" ++ s ++ "\""

/-- `sort.Strings`: lexicographic sort.  Any sorting algorithm yields
the same list, which is what the permutation-invariance theorem below
exploits. -/
def sortStringsGo (l : List String) : List String :=
  l.insertionSort (· ≤ ·)

/-! ## The `wsdl` document model (package wsdl, types.go)

Only the fields read by the generator are carried.  `xml.Name` fields
and attributes never consulted by the encoder are omitted.  Go pointers
become `Option`, slices become `List`.
-/

/-- `wsdl.AnyElement`. -/
structure AnyElement where
  min : Int
  max : String
deriving DecidableEq

/-- `wsdl.Attribute` (fields read by `genAttributeField`). -/
structure Attribute where
  name : String
  typ : String
  min : Int
  nillable : Bool
deriving DecidableEq

/-- `wsdl.Enum`: one allowed value of a restriction. -/
structure Enum where
  value : String
deriving DecidableEq

/-- `wsdl.Restriction`. -/
structure Restriction where
  base : String
  enum : List Enum
deriving DecidableEq

/-- `wsdl.Union`. -/
structure Union where
  memberTypes : String
deriving DecidableEq

/-- `wsdl.SimpleType`. -/
structure SimpleType where
  name : String
  union : Option Union
  restriction : Option Restriction
  targetNamespace : String
deriving DecidableEq

mutual

/-- `wsdl.ComplexType`. -/
inductive ComplexType where
  | mk (name : String) (abstract : Bool) (doc : String)
      (allElements : List Element)
      (complexContent : Option ComplexContent)
      (sequence : Option Sequence)
      (attributes : List Attribute)
      (targetNamespace : String) : ComplexType

/-- `wsdl.ComplexContent`. -/
inductive ComplexContent where
  | mk (ext : Option Extension) : ComplexContent

/-- `wsdl.Extension` (complex content extension). -/
inductive Extension where
  | mk (base : String) (sequence : Option Sequence)
      (attributes : List Attribute) : Extension

/-- `wsdl.Sequence`. -/
inductive Sequence where
  | mk (complexTypes : List ComplexType) (elements : List Element)
      (anyElems : List AnyElement) : Sequence

/-- `wsdl.Element`. -/
inductive Element where
  | mk (name ref typ : String) (min : Int) (max : String)
      (nillable : Bool) (complexType : Option ComplexType) : Element

end

def ComplexType.name : ComplexType → String
  | .mk n _ _ _ _ _ _ _ => n

def ComplexType.abstract : ComplexType → Bool
  | .mk _ a _ _ _ _ _ _ => a

def ComplexType.doc : ComplexType → String
  | .mk _ _ d _ _ _ _ _ => d

def ComplexType.allElements : ComplexType → List Element
  | .mk _ _ _ els _ _ _ _ => els

def ComplexType.complexContent : ComplexType → Option ComplexContent
  | .mk _ _ _ _ cc _ _ _ => cc

def ComplexType.sequence : ComplexType → Option Sequence
  | .mk _ _ _ _ _ sq _ _ => sq

def ComplexType.attributes : ComplexType → List Attribute
  | .mk _ _ _ _ _ _ ats _ => ats

def ComplexType.targetNamespace : ComplexType → String
  | .mk _ _ _ _ _ _ _ tns => tns

/-- Replace the name (used when caching an element's inline type under
the element's name, and by `unionSchemasData` for the namespace). -/
def ComplexType.withName (n : String) : ComplexType → ComplexType
  | .mk _ a d els cc sq ats tns => .mk n a d els cc sq ats tns

def ComplexType.withTargetNamespace (tns : String) : ComplexType → ComplexType
  | .mk n a d els cc sq ats _ => .mk n a d els cc sq ats tns

def ComplexContent.ext : ComplexContent → Option Extension
  | .mk e => e

def Extension.base : Extension → String
  | .mk b _ _ => b

def Extension.sequence : Extension → Option Sequence
  | .mk _ sq _ => sq

def Extension.attributes : Extension → List Attribute
  | .mk _ _ ats => ats

def Sequence.complexTypes : Sequence → List ComplexType
  | .mk cts _ _ => cts

def Sequence.elements : Sequence → List Element
  | .mk _ els _ => els

def Sequence.anyElems : Sequence → List AnyElement
  | .mk _ _ anys => anys

def Element.name : Element → String
  | .mk n _ _ _ _ _ _ => n

def Element.ref : Element → String
  | .mk _ r _ _ _ _ _ => r

def Element.typ : Element → String
  | .mk _ _ t _ _ _ _ => t

def Element.min : Element → Int
  | .mk _ _ _ m _ _ _ => m

def Element.max : Element → String
  | .mk _ _ _ _ m _ _ => m

def Element.nillable : Element → Bool
  | .mk _ _ _ _ _ nl _ => nl

def Element.complexType : Element → Option ComplexType
  | .mk _ _ _ _ _ _ ct => ct

/-- `wsdl.Part`. -/
structure Part where
  name : String
  typ : String
  element : String
deriving DecidableEq

/-- `wsdl.Message`. -/
structure Message where
  name : String
  parts : List Part
deriving DecidableEq

/-- `wsdl.IO` (input/output message reference of an operation); renamed
here because `IO` is taken in Lean. -/
structure IoMsg where
  message : String
deriving DecidableEq

/-- `wsdl.Operation`. -/
structure Operation where
  name : String
  doc : String
  input : Option IoMsg
  output : Option IoMsg
deriving DecidableEq

/-- `wsdl.PortType`. -/
structure PortType where
  name : String
  operations : List Operation
deriving DecidableEq

/-- The SOAP-1.2-scoped `operation` element of a binding operation
(`wsdl.SOAP12Operation`; its action attribute is read by the generator
as `bindingOp.Operation.SoapAction`).  A non-empty action switches the
generated method to the SOAP 1.2 round trip. -/
structure SOAP12Operation where
  soapAction : String
deriving DecidableEq

/-- `wsdl.BindingOperation`. -/
structure BindingOperation where
  name : String
  operation : SOAP12Operation
deriving DecidableEq

/-- `wsdl.Binding`. -/
structure Binding where
  name : String
  typ : String
  operations : List BindingOperation
deriving DecidableEq

/-- `wsdl.Import` (root-level import). -/
structure RootImport where
  ns : String
  location : String
deriving DecidableEq

/-- `wsdl.ImportSchema` (schema-level import). -/
structure SchemaImport where
  ns : String
  location : String
deriving DecidableEq

/-- `wsdl.Schema`. -/
structure Schema where
  targetNamespace : String
  namespaces : GoMap String
  imports : List SchemaImport
  simpleTypes : List SimpleType
  complexTypes : List ComplexType
  elements : List Element

def Schema.empty : Schema := ⟨"", [], [], [], [], []⟩

/-- `wsdl.Definitions`. -/
structure Definitions where
  name : String
  targetNamespace : String
  namespaces : GoMap String
  imports : List RootImport
  schema : Schema
  messages : List Message
  portType : PortType
  binding : Binding

/-! ## Generator state (`wsdlgo.goEncoder`)

The writer `w`, the HTTP client and `importedSchemas` are handled by
the emission lists and the import-phase state below; everything else is
carried verbatim. -/

structure GoEncoder where
  stypes : GoMap SimpleType
  ctypes : GoMap ComplexType
  elements : GoMap Element
  funcs : GoMap Operation
  funcnames : List String
  messages : GoMap Message
  soapOps : GoMap BindingOperation
  needsDateType : Bool
  needsTimeType : Bool
  needsDateTimeType : Bool
  needsDurationType : Bool
  needsTag : GoMap String
  needsStdPkg : GoMap Bool
  needsExtPkg : GoMap Bool

/-- `NewEncoder`: every cache empty, every flag false. -/
def GoEncoder.init : GoEncoder :=
  ⟨[], [], [], [], [], [], [], false, false, false, false, [], [], []⟩

/-- One function of the generated service interface
(`interfaceTypeFunc`); the doc buffer is the `writeComments` output for
`(name, op.Doc)`. -/
structure IfaceFunc where
  docName : String
  docText : String
  name : String
  input : String
  output : String
deriving DecidableEq

/-- One write to the output.  Each constructor corresponds to one
`fmt.Fprintf`/`io.WriteString`/template execution site of the source and
records the values interpolated there; the surrounding literal text is a
fixed function of the constructor, so equality of emission lists is
equality of output text. -/
inductive Emit where
  | comment (typeName comment : String)
  | packageHeader (pkg : String)
  | importLine (pkg : String)
  | importBlank
  | importClose
  | namespaceVar (ns : String)
  | interfaceTypeTmpl (name impl : String) (funcs : List IfaceFunc)
  | portTypeTmpl (name iface : String)
  | soap12Func (action portType name input output outputType xmlOutputType : String)
      (retPtr : Bool) (retDef : String)
  | soapFunc (portType name input output outputType xmlOutputType : String)
      (retPtr : Bool) (retDef : String)
  | stubFunc (name : String) (ins outs rets : List String)
  | simpleTypeDecl (name base : String)
  | unionDecl (name : String)
  | validatorTmpl (typeName typ : String) (args : List String)
  | dateDecl (name code : String)
  | xmlTypeFunc (name tns : String)
  | ifaceDecl (name : String)
  | anySliceDecl (name : String)
  | emptyStructDecl (name : String)
  | structOpen (name : String)
  | xmlNameField (tns elName : String)
  | typeAttrFields
  | structClose
  | field (name : String) (isSlice : Bool) (typ tag : String)
  | attrField (name typ tag : String)
deriving DecidableEq

/-- `writeComments(w, typeName, comment)`: the wrapped comment text is a
pure function of its two arguments, recorded as one emission. -/
def writeComments (typeName comment : String) : Emit :=
  .comment typeName comment

/-- The fixed `isGoKeyword` table. -/
def goKeywords : List String :=
  ["break", "case", "chan", "const", "continue", "default", "else",
   "defer", "fallthrough", "for", "func", "go", "goto", "if", "import",
   "interface", "map", "package", "range", "return", "select", "struct",
   "switch", "type", "var"]

def isGoKeyword (s : String) : Bool := goKeywords.contains s

/-- `wsdlgo.parameter` (second generation: `code` and `xmlToken`). -/
structure Parameter where
  code : String
  xmlToken : String
deriving DecidableEq

/-- `goEncoder.wsdl2goType`: WSDL type to Go type, setting the
date/time marker flags on the way. -/
def wsdl2goType (ge : GoEncoder) (t : String) : GoEncoder × String :=
  let v := trimns t
  if mapMem ge.stypes v then (ge, v)
  else
    match goToLower v with
    | "int" | "integer" => (ge, "int")
    | "long" => (ge, "int64")
    | "float" | "double" | "decimal" => (ge, "float64")
    | "boolean" => (ge, "bool")
    | "hexbinary" | "base64binary" => (ge, "[]byte")
    | "string" | "anyuri" | "token" | "qname" => (ge, "string")
    | "date" => ({ ge with needsDateType := true }, "Date")
    | "time" => ({ ge with needsTimeType := true }, "Time")
    | "nonnegativeinteger" => (ge, "uint")
    | "datetime" => ({ ge with needsDateTimeType := true }, "DateTime")
    | "duration" => ({ ge with needsDurationType := true }, "Duration")
    | "anysequence" | "anytype" | "anysimpletype" => (ge, "interface{}")
    | _ => (ge, "*" ++ goTitle (removeDots v))

/-- `goEncoder.wsdl2goDefault`: zero value for a generated Go type. -/
def wsdl2goDefault (t : String) : String :=
  let v := trimns t
  let v := match v.data with
    | '*' :: rest => String.mk rest
    | _ => v
  match v with
  | "error" => "errors.New(\"not implemented\")"
  | "bool" => "false"
  | "int" | "int64" | "float64" => "0"
  | "string" => "\"\""
  | "[]byte" => "nil"
  | _ => "&" ++ v ++ "{}"

/-- `goEncoder.genParams` over the parts of a message. -/
def genParams (ge : GoEncoder) (m : Message) (needsTag : Bool) :
    GoEncoder × List Parameter :=
  m.parts.foldl
    (fun (acc : GoEncoder × List Parameter) part =>
      let ge := acc.1
      let (ge, t, token, elName) :=
        if part.typ ≠ "" then
          let (ge, t) := wsdl2goType ge part.typ
          (ge, t, t, trimns part.typ)
        else if part.element ≠ "" then
          let elName := trimns part.element
          let (ge, t) :=
            match mapLookup ge.elements elName with
            | some el => wsdl2goType ge (trimns el.typ)
            | none => wsdl2goType ge part.element
          (ge, t, trimns part.element, elName)
        else (ge, "", "", "")
      let name := if isGoKeyword part.name then "_" ++ part.name else part.name
      let p : Parameter := ⟨name ++ " " ++ t, token⟩
      let ge :=
        if needsTag then
          { ge with needsTag := mapSet ge.needsTag (trimStar t) elName }
        else ge
      (ge, acc.2 ++ [p]))
    (ge, [])

/-- Error text of `inputParams` for a missing input message
(`fmt.Errorf("operation %q wants input message %q but it's not
defined", ...)`). -/
def inputMsgError (opName msgName : String) : String :=
  "operation \"" ++ opName ++ "\" wants input message \"" ++ msgName ++
    "\" but it's not defined"

/-- Error text of `outputParams` for a missing output message. -/
def outputMsgError (opName msgName : String) : String :=
  "operation \"" ++ opName ++ "\" wants output message \"" ++ msgName ++
    "\" but it's not defined"

/-- `goEncoder.inputParams`. -/
def inputParams (ge : GoEncoder) (op : Operation) :
    Except String (GoEncoder × List Parameter) :=
  match op.input with
  | none => .ok (ge, [])
  | some iom =>
    let im := trimns iom.message
    match mapLookup ge.messages im with
    | none => .error (inputMsgError op.name im)
    | some req => .ok (genParams ge req true)

/-- `goEncoder.outputParams`: the declared parts plus the trailing
`err error`. -/
def outputParams (ge : GoEncoder) (op : Operation) :
    Except String (GoEncoder × List Parameter) :=
  let errP : Parameter := ⟨"err error", ""⟩
  match op.output with
  | none => .ok (ge, [errP])
  | some iom =>
    let om := trimns iom.message
    match mapLookup ge.messages om with
    | none => .error (outputMsgError op.name om)
    | some resp =>
      let (ge, ps) := genParams ge resp false
      .ok (ge, ps ++ [errP])

/-- `code`: the Go source snippets of a parameter list. -/
def codeOf (list : List Parameter) : List String := list.map (·.code)

/-- `renameParam`. -/
def renameParam (p name : String) : String :=
  match goSplitN2 p with
  | [_, v1] => name ++ " " ++ v1
  | _ => p

/-- `goEncoder.fixFuncNameConflicts` with explicit fuel.  Every probe
appends `"Func"`, so all probed names are distinct; at most
`|stypes| + |ctypes|` of them can hit the caches, hence the fuel below
makes the fueled version agree exactly with the Go recursion. -/
def fixFuncNameConflictsFuel : Nat → GoEncoder → String → String
  | 0, _, name => name
  | n + 1, ge, name =>
    if mapMem ge.stypes name || mapMem ge.ctypes name then
      fixFuncNameConflictsFuel n ge (name ++ "Func")
    else name

def fixFuncNameConflicts (ge : GoEncoder) (name : String) : String :=
  fixFuncNameConflictsFuel (ge.stypes.length + ge.ctypes.length + 1) ge name

/-- `goEncoder.fixParamConflicts`: rename response parameters that
collide with a request parameter, in place. -/
def fixParamConflicts (req resp : List String) : List String :=
  req.foldl
    (fun resp a =>
      let x := ((goSplitN2 a).headD "")
      resp.map (fun b =>
        match goSplitN2 b with
        | [y0, y1] => if x = y0 then "resp" ++ goTitle y0 ++ " " ++ y1 else b
        | _ => b))
    resp

/-! ## Symbol caches (`cacheTypes` and friends) -/

mutual

/-- `goEncoder.cacheElements`: walk a list of elements, registering the
first occurrence of each (trimmed) name and descending into inline
complex types. -/
def cacheElements : GoEncoder → List Element → GoEncoder
  | ge, [] => ge
  | ge, el :: rest => cacheElements (cacheElementOne ge el) rest

/-- Body of the `cacheElements` loop for a single element. -/
def cacheElementOne : GoEncoder → Element → GoEncoder
  | ge, .mk nm rf tp mn mx nl cto =>
    if nm = "" || tp = "" then ge
    else
      let key := trimns nm
      if mapMem ge.elements key then ge
      else
        let ge :=
          { ge with elements := mapSet ge.elements key (.mk nm rf tp mn mx nl cto) }
        match cto with
        | none => ge
        | some (.mk _ _ _ aels _ sq _ _) =>
          let ge := cacheElements ge aels
          match sq with
          | none => ge
          | some (.mk _ sels _) => cacheElements ge sels

end

mutual

/-- `goEncoder.cacheComplexTypeElements`. -/
def cacheComplexTypeElements : GoEncoder → ComplexType → GoEncoder
  | ge, .mk _ _ _ aels cc sq _ _ =>
    let ge := cacheElements ge aels
    let ge :=
      match sq with
      | none => ge
      | some (.mk _ sels _) => cacheElements ge sels
    match cc with
    | none => ge
    | some (.mk none) => ge
    | some (.mk (some (.mk _ none _))) => ge
    | some (.mk (some (.mk _ (some (.mk ccts cels _)) _))) =>
      let ge := cacheCTList ge ccts
      cacheElements ge cels

/-- The `for _, cct := range seq.ComplexTypes` loop. -/
def cacheCTList : GoEncoder → List ComplexType → GoEncoder
  | ge, [] => ge
  | ge, ct :: rest => cacheCTList (cacheComplexTypeElements ge ct) rest

end

/-- `goEncoder.cacheTypes`.  The final pass over the complex type cache
ranges over a Go map; the model walks the entries in insertion order,
one admissible iteration order (`cacheComplexTypeElements` never
touches `ctypes`, so the snapshot is stable). -/
def cacheTypes (ge : GoEncoder) (d : Definitions) : GoEncoder :=
  let ge := d.schema.elements.foldl
    (fun ge el =>
      if el.typ = "" then
        match el.complexType with
        | some ct => { ge with ctypes := mapSet ge.ctypes el.name (ct.withName el.name) }
        | none => ge
      else ge) ge
  let ge := d.schema.simpleTypes.foldl
    (fun ge v => { ge with stypes := mapSet ge.stypes v.name v }) ge
  let ge := d.schema.complexTypes.foldl
    (fun ge v => { ge with ctypes := mapSet ge.ctypes v.name v }) ge
  let ge := cacheElements ge d.schema.elements
  cacheCTList ge (ge.ctypes.map Prod.snd)

/-- `goEncoder.cacheFuncs`: operations by name, plus the sorted name
list used for deterministic output order. -/
def cacheFuncs (ge : GoEncoder) (d : Definitions) : GoEncoder :=
  let ge := d.portType.operations.foldl
    (fun ge v => { ge with funcs := mapSet ge.funcs v.name v }) ge
  { ge with funcnames := sortStringsGo (mapKeys ge.funcs) }

/-- `goEncoder.cacheMessages`. -/
def cacheMessages (ge : GoEncoder) (d : Definitions) : GoEncoder :=
  d.messages.foldl (fun ge v => { ge with messages := mapSet ge.messages v.name v }) ge

/-- `goEncoder.cacheSOAPOperations`. -/
def cacheSOAPOperations (ge : GoEncoder) (d : Definitions) : GoEncoder :=
  d.binding.operations.foldl
    (fun ge v => { ge with soapOps := mapSet ge.soapOps v.name v }) ge

/-- `goEncoder.unionSchemasData`: merge a schema fragment's namespaces
into the definitions and append its types and elements (stamped with the
fragment's target namespace) to the unified schema. -/
def unionSchemasData (d : Definitions) (s : Schema) : Definitions :=
  let nss := s.namespaces.foldl (fun m kv => mapSet m kv.1 kv.2) d.namespaces
  let cts := s.complexTypes.map (·.withTargetNamespace s.targetNamespace)
  let sts := s.simpleTypes.map (fun st => { st with targetNamespace := s.targetNamespace })
  { d with
    namespaces := nss,
    schema := { d.schema with
      complexTypes := d.schema.complexTypes ++ cts,
      simpleTypes := d.schema.simpleTypes ++ sts,
      elements := d.schema.elements ++ s.elements } }

/-! ## Field and struct generation -/

def Element.withName (n : String) : Element → Element
  | .mk _ rf tp mn mx nl cto => .mk n rf tp mn mx nl cto

/-- `goEncoder.genAttributeField`. -/
def genAttributeField (ge : GoEncoder) (attr : Attribute) : GoEncoder × Emit :=
  let t := if attr.typ = "" then "string" else attr.typ
  let tag := attr.name ++ ",attr"
  let pt := wsdl2goType ge t
  let tag := if attr.nillable || attr.min = 0 then tag ++ ",omitempty" else tag
  (pt.1, .attrField (goTitle attr.name) pt.2 tag)

/-- `goEncoder.genElementField`: resolve a `ref`, collapse a
single-element or wildcard inline sequence, then emit the field line.
An unresolvable `ref` emits nothing at all. -/
def genElementField (ge : GoEncoder) (el : Element) : GoEncoder × List Emit :=
  match
    (if el.ref ≠ "" then
      match mapLookup ge.elements (trimns el.ref) with
      | none => none
      | some nel => some nel
    else some el) with
  | none => (ge, [])
  | some el =>
    let (el, slicetype) :=
      if el.typ = "" then
        match el.complexType with
        | some ct =>
          (match ct.sequence with
          | some seq =>
            if seq.elements.length = 1 then
              match seq.elements with
              | [seqel] => (seqel.withName el.name, seqel.name)
              | _ => (el, "")
            else if seq.anyElems.length = 1 then
              match seq.anyElems with
              | [a] => (Element.mk el.name "" "anysequence" a.min a.max false none, el.name)
              | _ => (el, "")
            else (el, "")
          | none => (el, ""))
        | none => (el, "")
      else (el, "")
    let et := if el.typ = "" then "string" else el.typ
    let isSlice := el.max ≠ "" && el.max ≠ "1"
    let tag := if isSlice && slicetype ≠ "" then el.name ++ ">" ++ slicetype else el.name
    let pt := wsdl2goType ge et
    let tag := if el.nillable || el.min = 0 then tag ++ ",omitempty" else tag
    (pt.1, [.field (goTitle el.name) isSlice pt.2 tag])

/-- One iteration of a `genElementField` loop. -/
def genElementFieldStep (acc : GoEncoder × List Emit) (el : Element) :
    GoEncoder × List Emit :=
  let p := genElementField acc.1 el
  (p.1, acc.2 ++ p.2)

/-- One iteration of a `genAttributeField` loop. -/
def genAttributeFieldStep (acc : GoEncoder × List Emit) (attr : Attribute) :
    GoEncoder × List Emit :=
  let p := genAttributeField acc.1 attr
  (p.1, acc.2 ++ [p.2])

/-- `goEncoder.genElements`: a complex type's `all` elements, then its
sequence elements, then its attributes. -/
def genElements (ge : GoEncoder) (ct : ComplexType) : GoEncoder × List Emit :=
  let p1 := ct.allElements.foldl genElementFieldStep (ge, [])
  match ct.sequence with
  | none => p1
  | some seq =>
    let p2 := seq.elements.foldl genElementFieldStep (p1.1, [])
    let p3 := ct.attributes.foldl genAttributeFieldStep (p2.1, [])
    (p3.1, p1.2 ++ p2.2 ++ p3.2)

/-- The part of `genComplexContent` after the base type's fields: the
extension's attributes, then the fields of the nested complex types of
its sequence, then the sequence's own elements. -/
def genElementsStep (acc : GoEncoder × List Emit) (v : ComplexType) :
    GoEncoder × List Emit :=
  let p := genElements acc.1 v
  (p.1, acc.2 ++ p.2)

def genExtensionTail (ge : GoEncoder) (ext : Extension) : GoEncoder × List Emit :=
  let p1 := ext.attributes.foldl genAttributeFieldStep (ge, [])
  match ext.sequence with
  | none => p1
  | some seq =>
    let p2 := seq.complexTypes.foldl genElementsStep (p1.1, [])
    let p3 := seq.elements.foldl genElementFieldStep (p2.1, [])
    (p3.1, p1.2 ++ p2.2 ++ p3.2)

/-- `goEncoder.genStructFields` = `genComplexContent` followed by
`genElements` on the type itself.  The recursion into the cached base
type follows the `ctypes` map rather than the structure of the value,
so it carries fuel: a lookup chain longer than the cache must repeat a
type, on which the Go code would recurse forever; fuel exhaustion
models that as an error. -/
def genStructFieldsF : Nat → GoEncoder → Definitions → ComplexType →
    Except String (GoEncoder × List Emit)
  | 0, _, _, _ => .error "complexContent extension chain does not terminate"
  | n + 1, ge, d, ct =>
    match ct.complexContent with
    | none => .ok (genElements ge ct)
    | some cc =>
      match cc.ext with
      | none => .ok (genElements ge ct)
      | some ext =>
        let baseRes : Except String (GoEncoder × List Emit) :=
          if ext.base ≠ "" then
            match mapLookup ge.ctypes (trimns ext.base) with
            | some base => genStructFieldsF n ge d base
            | none => .ok (ge, [])
          else .ok (ge, [])
        match baseRes with
        | .error e => .error e
        | .ok (ge, esBase) =>
          let pE := genExtensionTail ge ext
          let pO := genElements pE.1 ct
          .ok (pO.1, esBase ++ pE.2 ++ pO.2)

/-- `goEncoder.genGoXMLTypeFunction`: the `SetXMLType` method for
extension types with a target namespace. -/
def genGoXMLTypeFunction (ct : ComplexType) : List Emit :=
  match ct.complexContent with
  | none => []
  | some cc =>
    match cc.ext with
    | none => []
    | some ext =>
      if ct.targetNamespace = "" then []
      else if ext.base ≠ "" then
        [writeComments "SetXMLType" "", .xmlTypeFunc ct.name ct.targetNamespace]
      else []

/-- The emptiness count `c` computed at the top of `goEncoder.genGoStruct`. -/
def emptinessCount (ct : ComplexType) : Nat :=
  (if ct.allElements.length = 0 then 1 else 0) +
  (if (ct.complexContent.bind (·.ext)).isNone then 1 else 0) +
  (match ct.sequence with
   | none => 1
   | some seq =>
     if seq.complexTypes.length = 0 ∧ seq.elements.length = 0 then 1 else 0)

/-- `goEncoder.genGoStruct`. -/
def genGoStruct (fuel : Nat) (ge : GoEncoder) (d : Definitions) (ct : ComplexType) :
    Except String (GoEncoder × List Emit) :=
  let c := emptinessCount ct
  let name := goTitle ct.name
  let head := [writeComments name ct.doc]
  if ct.abstract then .ok (ge, head ++ [.ifaceDecl name])
  else if (match ct.sequence with
           | some seq => !seq.anyElems.isEmpty
           | none => false) then
    .ok (ge, head ++ [.anySliceDecl name])
  else if c > 2 then .ok (ge, head ++ [.emptyStructDecl name])
  else
    let open_ := head ++ [.structOpen name]
    let open_ :=
      match mapLookup ge.needsTag name with
      | some elName => open_ ++ [.xmlNameField d.targetNamespace elName]
      | none => open_
    match genStructFieldsF fuel ge d ct with
    | .error e => .error e
    | .ok (ge, fes) =>
      let post :=
        if (ct.complexContent.bind (·.ext)).isSome then [Emit.typeAttrFields] else []
      .ok (ge, open_ ++ fes ++ post ++ [.structClose])

/-- `goEncoder.genValidator`. -/
def genValidator (ge : GoEncoder) (typeName : String) (r : Restriction) :
    GoEncoder × List Emit :=
  if r.enum.length = 0 then (ge, [])
  else
    let pt := wsdl2goType ge r.base
    let args := r.enum.map (fun v => if pt.2 = "string" then goQuote v.value else v.value)
    let ge := { pt.1 with needsStdPkg := mapSet pt.1.needsStdPkg "reflect" true }
    (ge, [.validatorTmpl typeName pt.2 args])

/-- `goEncoder.genDateTypes`: emit the marker types whose need was
flagged during type mapping. -/
def genDateTypes (ge : GoEncoder) : List Emit :=
  (if ge.needsDateType then
    [writeComments "Date" "Date in WSDL format.", .dateDecl "Date" "type Date string"]
  else []) ++
  (if ge.needsTimeType then
    [writeComments "Time" "Time in WSDL format.", .dateDecl "Time" "type Time string"]
  else []) ++
  (if ge.needsDateTimeType then
    [writeComments "DateTime" "DateTime in WSDL format.",
     .dateDecl "DateTime" "type DateTime string"]
  else []) ++
  (if ge.needsDurationType then
    [writeComments "Duration" "Duration in WSDL format.",
     .dateDecl "Duration" "type Duration string"]
  else [])

/-- `goEncoder.sortedSimpleTypes`: the simple type cache's keys,
sorted.  The Go code collects the keys by ranging over the map and then
sorts; the sort makes the enumeration order irrelevant. -/
def sortedSimpleTypes (ge : GoEncoder) : List String :=
  sortStringsGo (mapKeys ge.stypes)

/-- `goEncoder.sortedComplexTypes`. -/
def sortedComplexTypes (ge : GoEncoder) : List String :=
  sortStringsGo (mapKeys ge.ctypes)

/-! ## writeGoTypes -/

/-- One member of a union's `memberTypes` list. -/
def unionMemberStep (acc : GoEncoder × List String) (t : String) :
    GoEncoder × List String :=
  let t := goTrimSpace t
  if t = "" then (acc.1, acc.2 ++ [""])
  else
    let p := wsdl2goType acc.1 t
    (p.1, acc.2 ++ [p.2])

/-- One simple type of the `writeGoTypes` loop. -/
def goSimpleTypeStep (acc : GoEncoder × List Emit) (nm : String) :
    GoEncoder × List Emit :=
  match mapLookup acc.1.stypes nm with
  | none => acc
  | some st =>
    match st.restriction with
    | some r =>
      let pb := wsdl2goType acc.1 r.base
      let es := acc.2 ++ [writeComments st.name "", .simpleTypeDecl st.name pb.2]
      let pv := genValidator pb.1 st.name r
      (pv.1, es ++ pv.2)
    | none =>
      match st.union with
      | some u =>
        let types := goSplitAll ' ' u.memberTypes
        let pn := types.foldl unionMemberStep (acc.1, [])
        let doc := st.name ++ " is a union of: " ++ String.intercalate ", " pn.2
        (pn.1, acc.2 ++ [writeComments st.name doc, .unionDecl st.name])
      | none => acc

/-- The simple type loop of `writeGoTypes`. -/
def goSimpleTypesLoop (ge : GoEncoder) (names : List String) :
    GoEncoder × List Emit :=
  names.foldl goSimpleTypeStep (ge, [])

/-- The complex type loop of `writeGoTypes`. -/
def goComplexTypesLoop (fuel : Nat) :
    GoEncoder → Definitions → List String → Except String (GoEncoder × List Emit)
  | ge, _, [] => .ok (ge, [])
  | ge, d, nm :: rest =>
    match mapLookup ge.ctypes nm with
    | none => goComplexTypesLoop fuel ge d rest
    | some ct =>
      match genGoStruct fuel ge d ct with
      | .error e => .error e
      | .ok (ge, es1) =>
        let es2 := genGoXMLTypeFunction ct
        match goComplexTypesLoop fuel ge d rest with
        | .error e => .error e
        | .ok (ge, es') => .ok (ge, es1 ++ es2 ++ es')

/-- `goEncoder.writeGoTypes`: sorted simple types, then sorted complex
types, with the date marker types emitted ahead of the buffered type
declarations. -/
def writeGoTypes (ge : GoEncoder) (d : Definitions) :
    Except String (GoEncoder × List Emit) :=
  let p := goSimpleTypesLoop ge (sortedSimpleTypes ge)
  let fuel := p.1.ctypes.length + 1
  match goComplexTypesLoop fuel p.1 d (sortedComplexTypes p.1) with
  | .error e => .error e
  | .ok (ge, cs) => .ok (ge, genDateTypes ge ++ p.2 ++ cs)

/-! ## Function generation -/

/-- The loop of `writeInterfaceFuncs` collecting the interface's
functions. -/
def ifaceFuncsLoop : GoEncoder → List String →
    Except String (GoEncoder × List IfaceFunc)
  | ge, [] => .ok (ge, [])
  | ge, fn :: rest =>
    match mapLookup ge.funcs fn with
    | none => ifaceFuncsLoop ge rest
    | some op =>
      if !mapMem ge.soapOps op.name then ifaceFuncsLoop ge rest
      else
        match inputParams ge op with
        | .error e => .error e
        | .ok (ge, inP) =>
          match outputParams ge op with
          | .error e => .error e
          | .ok (ge, outP) =>
            if inP.length ≠ 1 ∨ outP.length ≠ 2 then ifaceFuncsLoop ge rest
            else
              let inC := codeOf inP
              let outC := codeOf outP
              let name := goTitle op.name
              let inC := match inC with
                | c0 :: r => renameParam c0 "α" :: r
                | [] => []
              let outC := match outC with
                | c0 :: r => renameParam c0 "β" :: r
                | [] => []
              let f : IfaceFunc :=
                ⟨name, op.doc, name, String.intercalate "," inC,
                  String.intercalate "," outC⟩
              match ifaceFuncsLoop ge rest with
              | .error e => .error e
              | .ok (ge, fs) => .ok (ge, f :: fs)

/-- `goEncoder.writeInterfaceFuncs`. -/
def writeInterfaceFuncs (ge : GoEncoder) (d : Definitions) :
    Except String (GoEncoder × List Emit) :=
  match ifaceFuncsLoop ge ge.funcnames with
  | .error e => .error e
  | .ok (ge, fs) =>
    let n := d.portType.name
    .ok (ge, [.interfaceTypeTmpl (goTitle n) (lowerFirst n) fs])

/-- `goEncoder.writePortType`. -/
def writePortType (ge : GoEncoder) (d : Definitions) : GoEncoder × List Emit :=
  if ge.funcs.length = 0 then (ge, [])
  else (ge, [.portTypeTmpl (lowerFirst d.portType.name) (goTitle d.portType.name)])

/-- `goEncoder.writeSOAPFunc`: when the operation has a SOAP binding
entry and the parameter lists pass the arity guard, emit exactly one
round-trip method — the SOAP 1.2 one when the soap12-scoped action is
non-empty, the SOAP 1.1 fallback otherwise. -/
def writeSOAPFunc (ge : GoEncoder) (d : Definitions) (op : Operation)
    (inC outC retC : List String) (xmlToken : String) :
    GoEncoder × List Emit × Bool :=
  if !mapMem ge.soapOps op.name then (ge, [], false)
  else if inC.length < 1 ∨ outC.length ≠ 2 then (ge, [], false)
  else
    let ge := { ge with needsStdPkg := mapSet ge.needsStdPkg "encoding/xml" true }
    let ge :=
      { ge with needsExtPkg := mapSet ge.needsExtPkg "github.com/fiorix/wsdl2go/soap" true }
    let inC := match inC with
      | c :: r => renameParam c "α" :: r
      | [] => []
    let outC := match outC with
      | c :: r => renameParam c "β" :: r
      | [] => []
    let typ1 := splitSnd (outC.headD "")
    let retC := match retC with
      | r0 :: r => (if startsWithChar '&' r0 then "nil" else r0) :: r
      | [] => []
    let soap12Action :=
      match mapLookup ge.soapOps op.name with
      | some bo => bo.operation.soapAction
      | none => ""
    let portTypeName := lowerFirst d.portType.name
    let nameT := goTitle op.name
    let inputS := String.intercalate "," inC
    let outputS := String.intercalate "," outC
    let outputType := trimStar typ1
    let xmlOut := trimStar xmlToken
    let retPtr := startsWithChar '*' typ1
    let retDef := retC.headD ""
    if soap12Action ≠ "" then
      (ge,
        [.soap12Func soap12Action portTypeName nameT inputS outputS outputType
          xmlOut retPtr retDef], true)
    else
      (ge,
        [.soapFunc portTypeName nameT inputS outputS outputType xmlOut retPtr
          retDef], true)

/-- Error text of the binding/port type check at the top of
`writeGoFuncs`. -/
def bindingMismatchError (bname btyp : String) : String :=
  "binding \"" ++ bname ++ "\" requires port type \"" ++ btyp ++
    "\" but it's not defined"

/-- The part of a `writeGoFuncs` loop iteration after the parameter
lists have been generated: try the SOAP round trip, else fall back to a
stub with a `context.Context` parameter.  Returns the updated encoder
and the iteration's emissions as a prefix to what the rest of the loop
emits. -/
def goFuncsCont (ge : GoEncoder) (d : Definitions) (op : Operation)
    (inP outP : List Parameter) : GoEncoder × (List Emit → List Emit) :=
  let cm := writeComments op.name op.doc
  let inC := codeOf inP
  let outC := codeOf outP
  let retC := outC.map (fun p =>
    match goSplitN2 p with
    | [_, p1] => wsdl2goDefault p1
    | _ => "")
  let xmlTok := (outP.headD ⟨"", ""⟩).xmlToken
  let w := writeSOAPFunc ge d op inC outC retC xmlTok
  if w.2.2 then (w.1, fun es' => [cm] ++ w.2.1 ++ es')
  else
    let nsp := mapSet (mapSet w.1.needsStdPkg "errors" true) "context" true
    let ge := { w.1 with needsStdPkg := nsp }
    let inC := "ctx context.Context" :: inC
    let outC := fixParamConflicts inC outC
    let fname := fixFuncNameConflicts ge (goTitle op.name)
    (ge, fun es' => [cm, .stubFunc fname inC outC retC] ++ es')

/-- The loop of `writeGoFuncs` over the sorted operation names. -/
def goFuncsLoop : GoEncoder → Definitions → List String →
    Except String (GoEncoder × List Emit)
  | ge, _, [] => .ok (ge, [])
  | ge, d, fn :: rest =>
    match mapLookup ge.funcs fn with
    | none => goFuncsLoop ge d rest
    | some op =>
      match inputParams ge op with
      | .error e => .error e
      | .ok (ge, inP) =>
        match outputParams ge op with
        | .error e => .error e
        | .ok (ge, outP) =>
          let k := goFuncsCont ge d op inP outP
          match goFuncsLoop k.1 d rest with
          | .error e => .error e
          | .ok (ge, es') => .ok (ge, k.2 es')

/-- `goEncoder.writeGoFuncs`. -/
def writeGoFuncs (ge : GoEncoder) (d : Definitions) :
    Except String (GoEncoder × List Emit) :=
  if d.binding.typ ≠ "" ∧ trimns d.binding.typ ≠ trimns d.portType.name then
    .error (bindingMismatchError d.binding.name d.binding.typ)
  else if ge.funcs.length = 0 then .ok (ge, [])
  else goFuncsLoop ge d ge.funcnames

/-! ## Import resolution (`importParts`)

Fetching is the transport collaborator: a function from a location to
either an error or a raw document.  A raw document decodes as a
`<definitions>` root or a `<schema>` root; `encoding/xml` refuses to
decode one into the other's type.  The `importedSchemas` set and the
list of fetch attempts (`trace`) form the import-phase state. -/

/-- A successfully fetched and well-formed remote document. -/
inductive RawDoc where
  | defsDoc (d : Definitions)
  | schemaDoc (s : Schema)

/-- The transport collaborator, `ge.http.Get` composed with reading the
body. -/
def Fetch := String → Except String RawDoc

/-- Import-phase state: the `importedSchemas` memo plus the trace of
fetch attempts (for stating the fetched-at-most-once property). -/
structure ImportState where
  imported : GoMap Bool
  trace : List String

def ImportState.empty : ImportState := ⟨[], []⟩

/-- `goEncoder.importRemote`, up to decoding: skip an already-imported
location; otherwise fetch and mark it.  A failed fetch is still one
attempt but leaves the location unmarked, exactly as the source marks
only after `Get` succeeds. -/
def importRemoteRaw (f : Fetch) (url : String) (st : ImportState) :
    ImportState × Except String (Option RawDoc) :=
  if mapMem st.imported url then (st, .ok none)
  else
    match f url with
    | .error e => ({ st with trace := st.trace ++ [url] }, .error e)
    | .ok doc =>
      (⟨mapSet st.imported url true, st.trace ++ [url]⟩, .ok (some doc))

/-- `importRemote` decoding into a `*wsdl.Schema`. -/
def importRemoteSchema (f : Fetch) (url : String) (st : ImportState) :
    ImportState × Except String (Option Schema) :=
  match importRemoteRaw f url st with
  | (st, .error e) => (st, .error e)
  | (st, .ok none) => (st, .ok none)
  | (st, .ok (some (.schemaDoc s))) => (st, .ok (some s))
  | (st, .ok (some (.defsDoc _))) =>
    (st, .error "expected element type <schema> but have <definitions>")

/-- `xml.Decode` of a second `<definitions>` document into an existing
`*wsdl.Definitions`: slices append, scalar attributes present in the
new document overwrite. -/
def mergeDefs (d d2 : Definitions) : Definitions :=
  { name := if d2.name ≠ "" then d2.name else d.name
    targetNamespace :=
      if d2.targetNamespace ≠ "" then d2.targetNamespace else d.targetNamespace
    namespaces := d2.namespaces.foldl (fun m kv => mapSet m kv.1 kv.2) d.namespaces
    imports := d.imports ++ d2.imports
    schema :=
      { targetNamespace :=
          if d2.schema.targetNamespace ≠ "" then d2.schema.targetNamespace
          else d.schema.targetNamespace
        namespaces :=
          d2.schema.namespaces.foldl (fun m kv => mapSet m kv.1 kv.2)
            d.schema.namespaces
        imports := d.schema.imports ++ d2.schema.imports
        simpleTypes := d.schema.simpleTypes ++ d2.schema.simpleTypes
        complexTypes := d.schema.complexTypes ++ d2.schema.complexTypes
        elements := d.schema.elements ++ d2.schema.elements }
    messages := d.messages ++ d2.messages
    portType :=
      { name := if d2.portType.name ≠ "" then d2.portType.name else d.portType.name
        operations := d.portType.operations ++ d2.portType.operations }
    binding :=
      { name := if d2.binding.name ≠ "" then d2.binding.name else d.binding.name
        typ := if d2.binding.typ ≠ "" then d2.binding.typ else d.binding.typ
        operations := d.binding.operations ++ d2.binding.operations } }

/-- The loop of `importRoot` over the root-level imports (the ranged
slice is the one captured at loop entry, as in Go). -/
def importRootLoop (f : Fetch) :
    Definitions → ImportState → List RootImport →
      ImportState × Except String Definitions
  | d, st, [] => (st, .ok d)
  | d, st, imp :: rest =>
    if imp.location = "" then importRootLoop f d st rest
    else
      match importRemoteRaw f imp.location st with
      | (st, .error e) => (st, .error e)
      | (st, .ok none) => importRootLoop f d st rest
      | (st, .ok (some (.defsDoc d2))) => importRootLoop f (mergeDefs d d2) st rest
      | (st, .ok (some (.schemaDoc _))) =>
        (st, .error "expected element type <definitions> but have <schema>")

/-- `goEncoder.importRoot`. -/
def importRootE (f : Fetch) (d : Definitions) (st : ImportState) :
    ImportState × Except String Definitions :=
  importRootLoop f d st d.imports

/-- The inner loop of `importSchema`: the direct imports of a fetched
schema fragment are fetched once more and unioned, one level deep. -/
def importSchemaInner (f : Fetch) :
    Definitions → ImportState → List SchemaImport →
      ImportState × Except String Definitions
  | d, st, [] => (st, .ok d)
  | d, st, i :: rest =>
    match importRemoteSchema f i.location st with
    | (st, .error e) => (st, .error e)
    | (st, .ok osc) =>
      importSchemaInner f (unionSchemasData d (osc.getD Schema.empty)) st rest

/-- The outer loop of `importSchema` over the root schema's imports. -/
def importSchemaOuter (f : Fetch) :
    Definitions → ImportState → List SchemaImport →
      ImportState × Except String Definitions
  | d, st, [] => (st, .ok d)
  | d, st, imp :: rest =>
    if imp.location = "" then importSchemaOuter f d st rest
    else
      match importRemoteSchema f imp.location st with
      | (st, .error e) => (st, .error e)
      | (st, .ok osc) =>
        let sc := osc.getD Schema.empty
        let d := unionSchemasData d sc
        match importSchemaInner f d st sc.imports with
        | (st, .error e) => (st, .error e)
        | (st, .ok d) => importSchemaOuter f d st rest

/-- `goEncoder.importSchema`. -/
def importSchemaE (f : Fetch) (d : Definitions) (st : ImportState) :
    ImportState × Except String Definitions :=
  importSchemaOuter f d st d.schema.imports

/-- `goEncoder.importParts`. -/
def importPartsE (f : Fetch) (d : Definitions) (st : ImportState) :
    ImportState × Except String Definitions :=
  match importRootE f d st with
  | (st, .error e) => (st, .error e)
  | (st, .ok d) => importSchemaE f d st

/-! ## encode and Encode -/

/-- `goEncoder.formatPackageName`. -/
def formatPackageName (pkg : String) : String :=
  removeDots (goToLower pkg)

/-- The import block of `encode` (the two `for pkg := range …` loops):
`std` and `ext` are the entries of `needsStdPkg` resp. `needsExtPkg` in
the order the Go runtime happens to enumerate them. -/
def importBlock (std ext : List String) : List Emit :=
  std.map Emit.importLine ++
    (if std.length > 0 then [Emit.importBlank] else []) ++
    ext.map Emit.importLine ++ [Emit.importClose]

/-- The cache-building prefix of `encode`. -/
def buildCaches (d : Definitions) : GoEncoder :=
  cacheSOAPOperations (cacheMessages (cacheFuncs (cacheTypes GoEncoder.init d) d) d) d

/-- The cache-and-write part of `encode`, after imports have been
resolved.  The emissions of the `ff` steps go to the internal buffer
`b`, which is copied to the output after the package header, the import
block and the `Namespace` variable.  `encodeSteps` is the `ff` list of
`encode`: the write functions run in order, stopping at the first
error. -/
def encodeSteps (ge : GoEncoder) (d : Definitions) :
    Except String (GoEncoder × List Emit) :=
  if ge.soapOps.length > 0 then
    match writeInterfaceFuncs ge d with
    | .error e => .error e
    | .ok (ge, e1) =>
      match writeGoTypes ge d with
      | .error e => .error e
      | .ok (ge, e2) =>
        let p3 := writePortType ge d
        match writeGoFuncs p3.1 d with
        | .error e => .error e
        | .ok (ge, e4) => .ok (ge, e1 ++ e2 ++ p3.2 ++ e4)
  else
    match writeGoFuncs ge d with
    | .error e => .error e
    | .ok (ge, e1) =>
      match writeGoTypes ge d with
      | .error e => .error e
      | .ok (ge, e2) => .ok (ge, e1 ++ e2)

def encodeCore (d : Definitions) : Except String (GoEncoder × List Emit) :=
  let ge := buildCaches d
  let pkg := formatPackageName d.binding.name
  let pkg := if pkg = "" then "internal" else pkg
  match encodeSteps ge d with
  | .error e => .error e
  | .ok (ge, buf) =>
    let headerEmits :=
      [Emit.packageHeader pkg] ++
        importBlock (mapKeys ge.needsStdPkg) (mapKeys ge.needsExtPkg) ++
        (if d.targetNamespace ≠ "" then
          [writeComments "Namespace" "", Emit.namespaceVar d.targetNamespace]
        else []) ++ buf
    .ok (ge, headerEmits)

/-- `goEncoder.encode`: union the document's own schema into itself,
resolve imports, then run the cache-and-write pipeline. -/
def encodeE (f : Fetch) (d : Definitions) : Except String (GoEncoder × List Emit) :=
  let d := unionSchemasData d d.schema
  match importPartsE f d ImportState.empty with
  | (_, .error e) => .error ("wsdl import: " ++ e)
  | (_, .ok d) => encodeCore d

/-- Outcome of a top-level `Encode` call: what reached the output
writer `ge.w`, whether the parser/gofmt post-processing stage was
invoked, and the returned error. -/
structure EncodeResult where
  written : List Emit
  usedFormatter : Bool
  err : Option String
deriving DecidableEq

/-- The tail of `Encode` after `encode` has filled the buffer: on
error, return it with nothing written; on an empty buffer, return `nil`
without parsing or formatting; otherwise hand the buffer to the parser
and gofmt (modelled as succeeding collaborators, whose output is the
buffer's content). -/
def encodeFinish (r : Except String (GoEncoder × List Emit)) : EncodeResult :=
  match r with
  | .error e => ⟨[], false, some e⟩
  | .ok (_, out) => if out = [] then ⟨[], false, none⟩ else ⟨out, true, none⟩

/-- `goEncoder.Encode`: a `nil` `*wsdl.Definitions` returns `nil`
immediately, before anything touches the buffer or the writer. -/
def EncodeTop (f : Fetch) (d : Option Definitions) : EncodeResult :=
  match d with
  | none => ⟨[], false, none⟩
  | some d => encodeFinish (encodeE f d)

/-! ## Identifier sanitization (`scrubName`)

The regular expressions of the source, evaluated on character lists:

* `regexp.MustCompile("(.*)Id$").ReplaceAllString(name, "${1}ID")`
  rewrites a trailing `"Id"` to `"ID"` (the single match covers the
  whole string, `(.*)` greedy);
* `regexp.MustCompile("(.+)_(.+)").ReplaceAllString(name, "${1}${2}")`
  matches the whole string once when it has an underscore that is
  neither first nor last, with the greedy `(.+)` making the *last* such
  underscore the separator, so exactly that underscore is deleted;
* `strings.Replace(name, "_", "Var", 2)` rewrites the first two
  remaining underscores.
-/

/-- The `(.*)Id$` rewrite, on the reversed character list (first
argument) with the original list as fallback. -/
def idFixAux : List Char → List Char → List Char
  | c1 :: c2 :: rest, l =>
    if c1 = 'd' ∧ c2 = 'I' then ('D' :: 'I' :: rest).reverse else l
  | _, l => l

/-- The `(.*)Id$` rewrite. -/
def idFix (l : List Char) : List Char := idFixAux l.reverse l

/-- Delete the first underscore of `t` that is not `t`'s last element
(`t` is the reversed string without its head, so this is the last
underscore of the original that is neither first nor last). -/
def remFirstUnd : List Char → Option (List Char)
  | [] => none
  | c :: rest =>
    if c = '_' then (if rest.isEmpty then none else some rest)
    else (remFirstUnd rest).map (c :: ·)

/-- Body of the `(.+)_(.+)` rewrite on the reversed list. -/
def dropUndAux : List Char → List Char → List Char
  | [], l => l
  | h :: t, l =>
    match remFirstUnd t with
    | none => l
    | some t' => (h :: t').reverse

/-- The `(.+)_(.+)` rewrite: drop the last underscore that has at
least one character on each side. -/
def dropLastMidUnderscore (l : List Char) : List Char := dropUndAux l.reverse l

/-- `strings.Replace(·, "_", "Var", n)`. -/
def replaceVar : Nat → List Char → List Char
  | 0, l => l
  | _ + 1, [] => []
  | n + 1, c :: t =>
    if c = '_' then 'V' :: 'a' :: 'r' :: replaceVar n t
    else c :: replaceVar (n + 1) t

/-- The three rewrites of `scrubName` before the keyword check. -/
def scrubCore (s : String) : String :=
  String.mk (replaceVar 2 (dropLastMidUnderscore (idFix s.data)))

/-- `scrubName` (first-generation encoder): sanitize an identifier,
doubling the original when the sanitized name is a Go keyword. -/
def scrubName (s : String) : String :=
  let name := scrubCore s
  if isGoKeyword name then s ++ s else name

/-! ## Lemmas about the sanitizer -/

theorem remFirstUnd_eq_none {t : List Char} (h : '_' ∉ t) : remFirstUnd t = none := by
  induction t with
  | nil => rfl
  | cons c rest ih =>
    have hc : ¬(c = '_') := fun e => h (e ▸ List.mem_cons_self c rest)
    have hrest : '_' ∉ rest := fun m => h (List.mem_cons_of_mem c m)
    simp [remFirstUnd, hc, ih hrest]

theorem dropLastMidUnderscore_eq_self {l : List Char} (h : '_' ∉ l) :
    dropLastMidUnderscore l = l := by
  unfold dropLastMidUnderscore
  cases hr : l.reverse with
  | nil => rfl
  | cons hd t =>
    have ht : '_' ∉ t := by
      intro m
      exact h (List.mem_reverse.mp (hr ▸ List.mem_cons_of_mem hd m))
    simp [dropUndAux, remFirstUnd_eq_none ht]

theorem replaceVar_eq_self {l : List Char} (h : '_' ∉ l) :
    ∀ n, replaceVar n l = l := by
  induction l with
  | nil => intro n; cases n <;> rfl
  | cons c t ih =>
    intro n
    cases n with
    | zero => rfl
    | succ m =>
      have hc : ¬(c = '_') := fun e => h (e ▸ List.mem_cons_self c t)
      have ht : '_' ∉ t := fun m' => h (List.mem_cons_of_mem c m')
      simp [replaceVar, hc, ih ht]

theorem idFix_no_underscore {l : List Char} (h : '_' ∉ l) : '_' ∉ idFix l := by
  unfold idFix
  cases hr : l.reverse with
  | nil => exact h
  | cons c1 t1 =>
    cases t1 with
    | nil => exact h
    | cons c2 rest =>
      by_cases hc : c1 = 'd' ∧ c2 = 'I'
      · simp only [idFixAux, if_pos hc]
        intro m
        rw [List.mem_reverse] at m
        simp only [List.mem_cons] at m
        rcases m with m | m | m
        · exact absurd m (by decide)
        · exact absurd m (by decide)
        · exact h (List.mem_reverse.mp
            (hr ▸ List.mem_cons_of_mem c1 (List.mem_cons_of_mem c2 m)))
      · simp only [idFixAux, if_neg hc]
        exact h

theorem idFix_idem (l : List Char) : idFix (idFix l) = idFix l := by
  unfold idFix
  cases hr : l.reverse with
  | nil => simp [idFixAux, hr]
  | cons c1 t1 =>
    cases t1 with
    | nil => simp [idFixAux, hr]
    | cons c2 rest =>
      by_cases hc : c1 = 'd' ∧ c2 = 'I'
      · simp only [idFixAux, if_pos hc, List.reverse_reverse]
        simp
      · simp only [idFixAux, if_neg hc]
        rw [hr]
        simp only [idFixAux, if_neg hc]

/-- When the input has no `'I'`, the trailing-`Id` rewrite is the
identity. -/
theorem idFix_of_no_I {l : List Char} (h : 'I' ∉ l) : idFix l = l := by
  unfold idFix
  cases hr : l.reverse with
  | nil => rfl
  | cons c1 t1 =>
    cases t1 with
    | nil => rfl
    | cons c2 rest =>
      have hc : ¬(c1 = 'd' ∧ c2 = 'I') := by
        rintro ⟨-, h2⟩
        exact h (List.mem_reverse.mp (hr ▸ h2 ▸ List.mem_cons_of_mem c1
          (List.mem_cons_self c2 rest)))
      simp only [idFixAux, if_neg hc]

theorem isGoKeyword_iff {s : String} : isGoKeyword s = true ↔ s ∈ goKeywords :=
  List.elem_iff

theorem goKeywords_no_I_no_und : ∀ k ∈ goKeywords, 'I' ∉ k.data ∧ '_' ∉ k.data := by
  decide

theorem goKeywords_doubled_not_keyword :
    ∀ k ∈ goKeywords, isGoKeyword (k ++ k) = false := by
  decide

theorem scrubCore_of_no_underscore {s : String} (h : '_' ∉ s.data) :
    scrubCore s = String.mk (idFix s.data) := by
  unfold scrubCore
  rw [dropLastMidUnderscore_eq_self (idFix_no_underscore h),
    replaceVar_eq_self (idFix_no_underscore h)]

theorem idFix_eq_self_of_no_I_in_core {s : String}
    (hI : 'I' ∉ (String.mk (idFix s.data)).data) : idFix s.data = s.data := by
  cases hr : s.data.reverse with
  | nil => unfold idFix; rw [hr]; rfl
  | cons c1 t1 =>
    cases t1 with
    | nil => unfold idFix; rw [hr]; rfl
    | cons c2 rest =>
      by_cases hc : c1 = 'd' ∧ c2 = 'I'
      · exfalso
        apply hI
        show 'I' ∈ idFix s.data
        unfold idFix
        rw [hr]
        simp [idFixAux, if_pos hc, List.mem_reverse]
      · unfold idFix
        rw [hr]
        simp [idFixAux, if_neg hc]

/-- C9 core result: `scrubName` is idempotent on inputs without an
underscore (the Id→ID rewrite and the keyword doubling are each stable
under a second pass). -/
theorem scrubName_idem_of_no_underscore (s : String) (h : '_' ∉ s.data) :
    scrubName (scrubName s) = scrubName s := by
  have hIdf : '_' ∉ idFix s.data := idFix_no_underscore h
  have hcore : scrubCore s = String.mk (idFix s.data) := scrubCore_of_no_underscore h
  by_cases hk : isGoKeyword (scrubCore s) = true
  · have hkm : scrubCore s ∈ goKeywords := isGoKeyword_iff.mp hk
    have hI : 'I' ∉ (scrubCore s).data := (goKeywords_no_I_no_und _ hkm).1
    have hfix : idFix s.data = s.data :=
      idFix_eq_self_of_no_I_in_core (hcore ▸ hI)
    have hs_kw : s ∈ goKeywords := by
      have hcs : scrubCore s = s := by rw [hcore, hfix]
      rwa [hcs] at hkm
    have hdata_kw := goKeywords_no_I_no_und s hs_kw
    have h1 : scrubName s = s ++ s := by
      simp only [scrubName]
      rw [if_pos hk]
    rw [h1]
    have hdd : (s ++ s).data = s.data ++ s.data := rfl
    have hI2 : 'I' ∉ (s ++ s).data := by
      intro m
      rw [hdd] at m
      rcases List.mem_append.mp m with m | m <;> exact hdata_kw.1 m
    have hU2 : '_' ∉ (s ++ s).data := by
      intro m
      rw [hdd] at m
      rcases List.mem_append.mp m with m | m <;> exact hdata_kw.2 m
    have hcore2 : scrubCore (s ++ s) = s ++ s := by
      rw [scrubCore_of_no_underscore hU2, idFix_of_no_I hI2]
    have hk2 : isGoKeyword (scrubCore (s ++ s)) = false := by
      rw [hcore2]
      exact goKeywords_doubled_not_keyword s hs_kw
    simp only [scrubName]
    rw [if_neg (by rw [hk2]; simp), hcore2]
  · have hk' : isGoKeyword (scrubCore s) = false := by simpa using hk
    have h1 : scrubName s = scrubCore s := by
      simp only [scrubName]
      rw [if_neg hk]
    rw [h1]
    have htd : (scrubCore s).data = idFix s.data := by rw [hcore]
    have hU : '_' ∉ (scrubCore s).data := htd ▸ hIdf
    have hcore2 : scrubCore (scrubCore s) = scrubCore s := by
      rw [scrubCore_of_no_underscore hU, htd, idFix_idem]
      exact hcore.symm
    simp only [scrubName]
    rw [hcore2, if_neg hk]

/-! ## Claim theorems -/

theorem sortStringsGo_perm {o₁ o₂ : List String} (h : o₁.Perm o₂) :
    sortStringsGo o₁ = sortStringsGo o₂ := by
  unfold sortStringsGo
  exact List.eq_of_perm_of_sorted
    ((List.perm_insertionSort _ o₁).trans (h.trans (List.perm_insertionSort _ o₂).symm))
    (List.sorted_insertionSort _ o₁)
    (List.sorted_insertionSort _ o₂)

/-- A complex type with no content, used as a fixture. -/
def ctUnit : ComplexType := .mk "U" false "" [] none none [] ""

/-- A simple type with no content, used as a fixture. -/
def stUnit : SimpleType := ⟨"U", none, none, ""⟩

/-- C1 (counterexample): the import block emitted by `encode` (lines
`for pkg := range ge.needsStdPkg { fmt.Fprintf(w, "%q\n", pkg) }`) is
not a pure function of the document content: the map holding
`{"errors", "context"}` — the exact contents produced by generating a
stub function — can be enumerated in two orders, and the two
enumerations yield different output byte sequences, so `encode` run
twice on the same input need not produce byte-identical text. -/
theorem C1_counterexample :
    mapKeys (mapSet (mapSet ([] : GoMap Bool) "errors" true) "context" true) =
        ["errors", "context"] ∧
      (["errors", "context"] : List String).Perm ["context", "errors"] ∧
      importBlock ["errors", "context"] [] ≠ importBlock ["context", "errors"] [] := by
  refine ⟨by decide, ?_, by decide⟩
  decide

/-- C1 (amended): the order of the emitted type declarations is a pure
function of the document content — `sortedComplexTypes` and
`sortedSimpleTypes` return the lexicographically sorted cache keys no
matter in which order the Go runtime enumerates the maps — but the
block of imports has the raw map enumeration order and is
nondeterministic (see the counterexample). -/
theorem C1_theorem :
    (∀ (ge : GoEncoder) (o : List String), o.Perm (mapKeys ge.ctypes) →
      sortStringsGo o = sortedComplexTypes ge) ∧
    (∀ (ge : GoEncoder) (o : List String), o.Perm (mapKeys ge.stypes) →
      sortStringsGo o = sortedSimpleTypes ge) :=
  ⟨fun _ _ h => sortStringsGo_perm h, fun _ _ h => sortStringsGo_perm h⟩

/-- C1 (witness): the sorted-key invariance applied to a two-type cache
enumerated backwards. -/
theorem C1_witness :
    sortStringsGo ["A", "B"] =
        sortedComplexTypes
          { GoEncoder.init with ctypes := [("B", ctUnit), ("A", ctUnit)] } ∧
      sortStringsGo ["S", "T"] =
        sortedSimpleTypes
          { GoEncoder.init with stypes := [("T", stUnit), ("S", stUnit)] } :=
  ⟨C1_theorem.1 _ ["A", "B"] (by decide), C1_theorem.2 _ ["S", "T"] (by decide)⟩

/-- C9 (counterexample): `scrubName` is not idempotent: on `"I_d"` the
underscore removal produces `"Id"`, and the second pass rewrites the
now-trailing `"Id"` to `"ID"`. -/
theorem C9_counterexample :
    scrubName "I_d" = "Id" ∧ scrubName (scrubName "I_d") = "ID" ∧
      scrubName (scrubName "I_d") ≠ scrubName "I_d" := by
  refine ⟨?_, ?_, ?_⟩ <;> decide

/-- C9 (amended): `scrubName` is idempotent on every input that
contains no underscore; the underscore rewrites can create a new
trailing `"Id"` (or leave a fourth underscore for the next pass), which
is what the counterexample exploits. -/
theorem C9_theorem (s : String) (h : '_' ∉ s.data) :
    scrubName (scrubName s) = scrubName s :=
  scrubName_idem_of_no_underscore s h

/-- C9 (witness): idempotence on the underscore-free identifier
`"ColorId"`. -/
theorem C9_witness :
    '_' ∉ ("ColorId" : String).data ∧
      scrubName (scrubName "ColorId") = scrubName "ColorId" :=
  ⟨by decide, C9_theorem "ColorId" (by decide)⟩

/-! ### Fixtures and observation functions for the generator claims -/

/-- An empty definitions document (only passed through for the target
namespace and port type name). -/
def defnEmpty : Definitions := ⟨"", "", [], [], Schema.empty, [], ⟨"", []⟩, ⟨"", "", []⟩⟩

/-- Is this emission the SOAP 1.2 round-trip method? -/
def isSoap12Emit : Emit → Bool
  | .soap12Func .. => true
  | _ => false

/-- Is this emission the SOAP 1.1 fallback round-trip method? -/
def isSoap11Emit : Emit → Bool
  | .soapFunc .. => true
  | _ => false

/-- The name of an emitted struct field or attribute field. -/
def emittedFieldName : Emit → Option String
  | .field n _ _ _ => some n
  | .attrField n _ _ => some n
  | _ => none

def fieldNames (es : List Emit) : List String :=
  es.filterMap emittedFieldName

def fieldNamesOfResult : Except String (GoEncoder × List Emit) → Option (List String)
  | .ok (_, es) => some (fieldNames es)
  | .error _ => none

/-- Fixture: element `Foo` of type `xsd:string`. -/
def elFoo : Element := .mk "Foo" "" "xsd:string" 1 "" false none

/-- Fixture: a sequence holding only `Foo`. -/
def seqFoo : Sequence := .mk [] [elFoo] []

/-- Fixture: complex type `A` with field `Foo`. -/
def ctA : ComplexType := .mk "A" false "" [] none (some seqFoo) [] ""

/-- Fixture: extension of base `tns:A` redeclaring `Foo`. -/
def extB : Extension := .mk "tns:A" (some seqFoo) []

/-- Fixture: complex type `B` extending `A` with another `Foo`. -/
def ctB : ComplexType := .mk "B" false "" [] (some (.mk (some extB))) none [] ""

/-- Fixture: encoder whose type cache holds `A` and `B`. -/
def geAB : GoEncoder := { GoEncoder.init with ctypes := [("A", ctA), ("B", ctB)] }

/-- C3 (counterexample): `B` extends `A = { Foo }` and redeclares
`Foo`; the flattened field list generated for `B` is `Foo, Foo` — the
duplicate is not filtered, refuting the no-duplicate-field-names part
of the claim. -/
theorem C3_counterexample :
    fieldNamesOfResult (genStructFieldsF 2 geAB defnEmpty ctB) =
        some ["Foo", "Foo"] ∧
      ¬(["Foo", "Foo"] : List String).Nodup := by
  exact ⟨by decide, by decide⟩

/-- C3 (amended): when `B`'s complex content extension base resolves in
the type cache to `A`, the field list generated for `B` is exactly the
field list generated for `A` (from the same encoder state, hence in
`A`'s own order), followed by the extension's attributes and sequence
fields (`genExtensionTail`), followed by `B`'s own elements and
attributes; the pieces are concatenated with no duplicate-name
filtering. -/
theorem C3_theorem (n : Nat) (ge geA : GoEncoder) (d : Definitions)
    (ct A : ComplexType) (cc : ComplexContent) (ext : Extension) (esA : List Emit)
    (hcc : ct.complexContent = some cc) (hext : cc.ext = some ext)
    (hbase : ext.base ≠ "")
    (hA : mapLookup ge.ctypes (trimns ext.base) = some A)
    (hrun : genStructFieldsF n ge d A = .ok (geA, esA)) :
    genStructFieldsF (n + 1) ge d ct =
      (let p1 := genExtensionTail geA ext
       let p2 := genElements p1.1 ct
       .ok (p2.1, esA ++ p1.2 ++ p2.2)) := by
  simp only [genStructFieldsF, hcc, hext, if_pos hbase, hA, hrun]

/-- C3 (witness): the decomposition applied to the `A`/`B` fixture. -/
theorem C3_witness :
    genStructFieldsF 2 geAB defnEmpty ctB =
      (let p1 := genExtensionTail geAB extB
       let p2 := genElements p1.1 ctB
       .ok (p2.1, [Emit.field "Foo" false "string" "Foo"] ++ p1.2 ++ p2.2)) :=
  C3_theorem 1 geAB geAB defnEmpty ctB ctA (.mk (some extB)) extB
    [Emit.field "Foo" false "string" "Foo"] rfl rfl (by decide) (by rfl) (by rfl)

/-- C5 (counterexample): an element with `maxOccurs="unbounded"` whose
`ref` resolves to a cached element with no `maxOccurs` produces a
non-repeated field: the generator substitutes the referenced element
wholesale, discarding the referencing element's own cardinality, so
`maxOccurs="unbounded"` does not always yield a slice. -/
theorem C5_counterexample :
    (Element.mk "y" "tns:x" "" 1 "unbounded" false none).max = "unbounded" ∧
      (genElementField
          { GoEncoder.init with
            elements := [("x", Element.mk "x" "" "xsd:string" 1 "" false none)] }
          (Element.mk "y" "tns:x" "" 1 "unbounded" false none)).2 =
        [.field "X" false "string" "x"] :=
  ⟨rfl, by decide⟩

/-- C5 (amended): for an element that is not rewritten — no `ref`, and
either an explicit type or no inline complex type — the generated field
is repeated exactly when its own `maxOccurs` is present and differs
from `"1"`; for `ref` elements the decision is made on the referenced
element instead (see the counterexample). -/
theorem C5_theorem (ge : GoEncoder) (nm tp mx : String) (mn : Int) (nl : Bool)
    (cto : Option ComplexType) (hplain : tp ≠ "" ∨ cto = none) :
    (genElementField ge (Element.mk nm "" tp mn mx nl cto)).2 =
      [.field (goTitle nm) (mx ≠ "" && mx ≠ "1")
        (wsdl2goType ge (if tp = "" then "string" else tp)).2
        (if nl || mn = 0 then nm ++ ",omitempty" else nm)] := by
  rcases hplain with h | h
  · simp [genElementField, Element.ref, Element.typ, Element.name, Element.max,
      Element.min, Element.nillable, Element.complexType, h]
  · subst h
    by_cases htp : tp = "" <;>
      simp [genElementField, Element.ref, Element.typ, Element.name, Element.max,
        Element.min, Element.nillable, Element.complexType, htp]

/-- C5 (witness): `maxOccurs="unbounded"` on a plain string element
yields a repeated field. -/
theorem C5_witness :
    (genElementField GoEncoder.init
        (Element.mk "y" "" "xsd:string" 1 "unbounded" false none)).2 =
      [.field "Y" true "string" "y"] := by
  rw [C5_theorem GoEncoder.init "y" "xsd:string" "unbounded" 1 false none
    (Or.inl (by decide))]
  decide

/-- Fixture: binding operation `Op1` with soap12 action `ActX`. -/
def boActX : BindingOperation := ⟨"Op1", ⟨"ActX"⟩⟩

/-- Fixture: encoder whose SOAP operation cache holds `Op1`. -/
def geSoap1 : GoEncoder := { GoEncoder.init with soapOps := [("Op1", boActX)] }

/-- Fixture: operation `Op1`. -/
def opOp1 : Operation := ⟨"Op1", "", some ⟨"m1"⟩, some ⟨"m2"⟩⟩

/-- C6 (counterexample): an operation that has a SOAP binding entry but
three output parameters fails the arity guard: `writeSOAPFunc` emits no
wire dispatch path at all and reports `false` (the caller then emits a
plain stub), so it is not the case that every operation with a binding
entry gets exactly one wire dispatch path. -/
theorem C6_counterexample :
    mapMem geSoap1.soapOps opOp1.name = true ∧
      (writeSOAPFunc geSoap1 defnEmpty opOp1
          ["a int"] ["x int", "y int", "err error"] ["0", "0", "e"] "tok").2 =
        ([], false) :=
  ⟨by decide, by decide⟩

/-- C6 (amended): for an operation with a SOAP binding entry whose
parameter lists pass the arity guard (at least one input, exactly two
outputs), `writeSOAPFunc` emits exactly one wire dispatch method: the
SOAP 1.2 round trip when the soap12-scoped action attribute is
non-empty, otherwise the SOAP 1.1 fallback — never both. -/
theorem C6_theorem (ge : GoEncoder) (d : Definitions) (op : Operation)
    (bo : BindingOperation) (inC outC retC : List String) (tok : String)
    (hbo : mapLookup ge.soapOps op.name = some bo)
    (hin : 1 ≤ inC.length) (hout : outC.length = 2) :
    ∃ ge' e, writeSOAPFunc ge d op inC outC retC tok = (ge', [e], true) ∧
      (isSoap12Emit e = true ↔ bo.operation.soapAction ≠ "") ∧
      (isSoap11Emit e = true ↔ bo.operation.soapAction = "") := by
  have hmem : mapMem ge.soapOps op.name = true := by
    simp [mapMem, hbo]
  have hguard : ¬(inC.length < 1 ∨ outC.length ≠ 2) := by omega
  by_cases hact : bo.operation.soapAction = ""
  · exact ⟨_, _,
      by simp only [writeSOAPFunc, hmem, Bool.not_true, if_neg hguard, hbo, hact]; rfl,
      by simp [isSoap12Emit, hact],
      by simp [isSoap11Emit, hact]⟩
  · exact ⟨_, _,
      by simp only [writeSOAPFunc, hmem, Bool.not_true, if_neg hguard, hbo, if_pos hact]; rfl,
      by simp [isSoap12Emit, hact],
      by simp [isSoap11Emit, hact]⟩

/-- C6 (witness): a guarded operation with a non-empty soap12 action
gets exactly the SOAP 1.2 dispatch. -/
theorem C6_witness :
    ∃ ge' e,
      writeSOAPFunc geSoap1 defnEmpty opOp1
          ["a int"] ["resp *R", "err error"] ["&R{}", "err"] "R" = (ge', [e], true) ∧
        (isSoap12Emit e = true ↔ boActX.operation.soapAction ≠ "") ∧
        (isSoap11Emit e = true ↔ boActX.operation.soapAction = "") :=
  C6_theorem geSoap1 defnEmpty opOp1 boActX _ _ _ "R" (by rfl) (by decide) (by decide)

/-- C7 (counterexample): an element whose `ref` does not resolve in the
element cache is silently dropped: `genElementField` has no error
result and emits nothing, so no named error surfaces and the field is
skipped — the opposite of what the claim states. -/
theorem C7_counterexample :
    (genElementField GoEncoder.init
        (Element.mk "field1" "tns:nope" "" 1 "" false none)).2 = [] := by
  decide

/-- C7 (amended): for every element with a non-empty `ref` that is
absent from the element cache, `genElementField` returns without
emitting any field and without reporting any error (its signature has
no error channel): the unresolved reference is skipped silently. -/
theorem C7_theorem (ge : GoEncoder) (el : Element) (href : el.ref ≠ "")
    (hmiss : mapLookup ge.elements (trimns el.ref) = none) :
    genElementField ge el = (ge, []) := by
  simp only [genElementField, if_pos href, hmiss]

/-- C7 (witness): the silent skip at a concrete unresolved
reference. -/
theorem C7_witness :
    genElementField GoEncoder.init (Element.mk "f2" "tns:ghost" "" 0 "" false none) =
      (GoEncoder.init, []) :=
  C7_theorem GoEncoder.init (Element.mk "f2" "tns:ghost" "" 0 "" false none)
    (by decide) (by rfl)

/-- C8: a complex type marked `abstract` generates the comment followed
by an open interface declaration (`type X interface{}`) with no fields
— the declaration is present in the output, it is not omitted and no
struct is emitted. -/
theorem C8_theorem (fuel : Nat) (ge : GoEncoder) (d : Definitions)
    (ct : ComplexType) (habs : ct.abstract = true) :
    genGoStruct fuel ge d ct =
      .ok (ge, [writeComments (goTitle ct.name) ct.doc,
        .ifaceDecl (goTitle ct.name)]) := by
  simp only [genGoStruct, habs]
  simp

/-- C8 (witness): the abstract fixture type `baseEntity` emits exactly
its comment and `type BaseEntity interface{}`. -/
theorem C8_witness :
    genGoStruct 1 GoEncoder.init defnEmpty
        (ComplexType.mk "baseEntity" true "Doc." [] none none [] "") =
      .ok (GoEncoder.init,
        [writeComments (goTitle "baseEntity") "Doc.",
          .ifaceDecl (goTitle "baseEntity")]) :=
  C8_theorem 1 GoEncoder.init defnEmpty
    (ComplexType.mk "baseEntity" true "Doc." [] none none [] "") rfl

/-! ## Cache preservation across the write phase

The write functions only touch the `needs…` bookkeeping of the encoder;
the symbol caches built by `cacheTypes`/`cacheFuncs`/`cacheMessages`/
`cacheSOAPOperations` stay fixed.  This is what lets a missing-message
error observed on the freshly built caches survive to the operation's
turn in the write loops. -/

/-- The two encoders agree on every symbol cache. -/
def cachesEq (a b : GoEncoder) : Prop :=
  a.stypes = b.stypes ∧ a.ctypes = b.ctypes ∧ a.elements = b.elements ∧
    a.funcs = b.funcs ∧ a.funcnames = b.funcnames ∧ a.messages = b.messages ∧
    a.soapOps = b.soapOps

theorem cachesEq_refl (a : GoEncoder) : cachesEq a a :=
  ⟨rfl, rfl, rfl, rfl, rfl, rfl, rfl⟩

theorem cachesEq_trans {a b c : GoEncoder} (h1 : cachesEq a b) (h2 : cachesEq b c) :
    cachesEq a c := by
  obtain ⟨x1, x2, x3, x4, x5, x6, x7⟩ := h1
  obtain ⟨y1, y2, y3, y4, y5, y6, y7⟩ := h2
  exact ⟨x1.trans y1, x2.trans y2, x3.trans y3, x4.trans y4, x5.trans y5,
    x6.trans y6, x7.trans y7⟩

theorem wsdl2goType_caches (ge : GoEncoder) (t : String) :
    cachesEq (wsdl2goType ge t).1 ge := by
  unfold wsdl2goType
  dsimp only
  split
  · exact cachesEq_refl _
  · split <;> exact ⟨rfl, rfl, rfl, rfl, rfl, rfl, rfl⟩

/-- Folding a cache-preserving step preserves the caches. -/
theorem foldl_caches {β γ : Type}
    (step : (GoEncoder × γ) → β → (GoEncoder × γ))
    (hstep : ∀ acc x, cachesEq (step acc x).1 acc.1) :
    ∀ (l : List β) (acc : GoEncoder × γ), cachesEq (l.foldl step acc).1 acc.1 := by
  intro l
  induction l with
  | nil => intro acc; exact cachesEq_refl _
  | cons x xs ih =>
    intro acc
    exact cachesEq_trans (ih (step acc x)) (hstep acc x)

theorem genParams_caches (ge : GoEncoder) (m : Message) (b : Bool) :
    cachesEq (genParams ge m b).1 ge := by
  unfold genParams
  exact foldl_caches _
    (fun acc part => by
      dsimp only
      repeat' split
      all_goals
        refine cachesEq_trans ⟨rfl, rfl, rfl, rfl, rfl, rfl, rfl⟩ ?_
      all_goals first
        | exact wsdl2goType_caches _ _
        | exact cachesEq_refl _)
    m.parts (ge, [])

theorem inputParams_ok_caches {ge ge1 : GoEncoder} {op : Operation}
    {ps : List Parameter} (h : inputParams ge op = .ok (ge1, ps)) :
    cachesEq ge1 ge := by
  unfold inputParams at h
  split at h
  · cases h; exact cachesEq_refl _
  · dsimp only at h
    split at h
    · cases h
    · rename_i req _
      have : (genParams ge req true).1 = ge1 := by
        cases hgp : genParams ge req true
        rw [hgp] at h
        cases h
        rfl
      exact this ▸ genParams_caches _ _ _

theorem outputParams_ok_caches {ge ge1 : GoEncoder} {op : Operation}
    {ps : List Parameter} (h : outputParams ge op = .ok (ge1, ps)) :
    cachesEq ge1 ge := by
  unfold outputParams at h
  dsimp only at h
  split at h
  · cases h; exact cachesEq_refl _
  · split at h
    · cases h
    · rename_i resp _
      have : (genParams ge resp false).1 = ge1 := by
        cases hgp : genParams ge resp false
        rw [hgp] at h
        cases h
        rfl
      exact this ▸ genParams_caches _ _ _

theorem writeSOAPFunc_caches (ge : GoEncoder) (d : Definitions) (op : Operation)
    (a b c : List String) (t : String) :
    cachesEq (writeSOAPFunc ge d op a b c t).1 ge := by
  unfold writeSOAPFunc
  split
  · exact ⟨rfl, rfl, rfl, rfl, rfl, rfl, rfl⟩
  · split
    · exact ⟨rfl, rfl, rfl, rfl, rfl, rfl, rfl⟩
    · dsimp only
      repeat' split
      all_goals exact ⟨rfl, rfl, rfl, rfl, rfl, rfl, rfl⟩

theorem genValidator_caches (ge : GoEncoder) (n : String) (r : Restriction) :
    cachesEq (genValidator ge n r).1 ge := by
  unfold genValidator
  dsimp only
  split
  · exact cachesEq_refl _
  · exact cachesEq_trans ⟨rfl, rfl, rfl, rfl, rfl, rfl, rfl⟩ (wsdl2goType_caches _ _)

theorem genAttributeField_caches (ge : GoEncoder) (attr : Attribute) :
    cachesEq (genAttributeField ge attr).1 ge := by
  unfold genAttributeField
  dsimp only
  exact wsdl2goType_caches _ _

theorem genElementField_caches (ge : GoEncoder) (el : Element) :
    cachesEq (genElementField ge el).1 ge := by
  unfold genElementField
  repeat' split
  all_goals first
    | exact cachesEq_refl _
    | exact wsdl2goType_caches _ _

theorem genElementFieldStep_caches (acc : GoEncoder × List Emit) (el : Element) :
    cachesEq (genElementFieldStep acc el).1 acc.1 :=
  genElementField_caches acc.1 el

theorem genAttributeFieldStep_caches (acc : GoEncoder × List Emit) (attr : Attribute) :
    cachesEq (genAttributeFieldStep acc attr).1 acc.1 :=
  genAttributeField_caches acc.1 attr

theorem genElements_caches (ge : GoEncoder) (ct : ComplexType) :
    cachesEq (genElements ge ct).1 ge := by
  unfold genElements
  split
  · exact foldl_caches genElementFieldStep genElementFieldStep_caches _ _
  · exact cachesEq_trans
      (cachesEq_trans
        (foldl_caches genAttributeFieldStep genAttributeFieldStep_caches _ _)
        (foldl_caches genElementFieldStep genElementFieldStep_caches _ _))
      (foldl_caches genElementFieldStep genElementFieldStep_caches _ _)

theorem genElementsStep_caches (acc : GoEncoder × List Emit) (v : ComplexType) :
    cachesEq (genElementsStep acc v).1 acc.1 :=
  genElements_caches acc.1 v

theorem genExtensionTail_caches (ge : GoEncoder) (ext : Extension) :
    cachesEq (genExtensionTail ge ext).1 ge := by
  unfold genExtensionTail
  split
  · exact foldl_caches genAttributeFieldStep genAttributeFieldStep_caches _ _
  · exact cachesEq_trans
      (cachesEq_trans
        (foldl_caches genElementFieldStep genElementFieldStep_caches _ _)
        (foldl_caches genElementsStep genElementsStep_caches _ _))
      (foldl_caches genAttributeFieldStep genAttributeFieldStep_caches _ _)

theorem genStructFieldsF_caches :
    ∀ (n : Nat) (ge ge1 : GoEncoder) (d : Definitions) (ct : ComplexType)
      (es : List Emit), genStructFieldsF n ge d ct = .ok (ge1, es) →
      cachesEq ge1 ge := by
  intro n
  induction n with
  | zero => intro ge ge1 d ct es h; cases h
  | succ m ih =>
    intro ge ge1 d ct es h
    unfold genStructFieldsF at h
    split at h
    · injection h with h'
      have hfst : (genElements ge ct).1 = ge1 := by rw [h']
      exact hfst ▸ genElements_caches _ _
    · split at h
      · injection h with h'
        have hfst : (genElements ge ct).1 = ge1 := by rw [h']
        exact hfst ▸ genElements_caches _ _
      · rename_i ext hext
        dsimp only at h
        split at h
        · cases h
        · rename_i geB esB hbase
          have hB : cachesEq geB ge := by
            split at hbase
            · split at hbase
              · exact ih _ _ _ _ _ hbase
              · cases hbase; exact cachesEq_refl _
            · cases hbase; exact cachesEq_refl _
          rcases hET : genExtensionTail geB ext with ⟨geE, esE⟩
          rw [hET] at h
          rcases hGE : genElements geE ct with ⟨geO, esO⟩
          rw [hGE] at h
          injection h with h'
          injection h' with h1 h2
          have hE : cachesEq geE geB := by
            have := genExtensionTail_caches geB ext
            rwa [hET] at this
          have hO : cachesEq geO geE := by
            have := genElements_caches geE ct
            rwa [hGE] at this
          exact h1 ▸ cachesEq_trans (cachesEq_trans hO hE) hB

theorem genGoStruct_ok_caches {fuel : Nat} {ge ge1 : GoEncoder} {d : Definitions}
    {ct : ComplexType} {es : List Emit}
    (h : genGoStruct fuel ge d ct = .ok (ge1, es)) : cachesEq ge1 ge := by
  unfold genGoStruct at h
  dsimp only at h
  split at h
  · cases h; exact cachesEq_refl _
  · split at h
    · cases h; exact cachesEq_refl _
    · split at h
      · cases h; exact cachesEq_refl _
      · split at h
        · cases h
        · rename_i p hp
          cases h
          exact genStructFieldsF_caches _ _ _ _ _ _ hp

theorem unionMemberStep_caches (acc : GoEncoder × List String) (t : String) :
    cachesEq (unionMemberStep acc t).1 acc.1 := by
  unfold unionMemberStep
  dsimp only
  split
  · exact cachesEq_refl _
  · exact wsdl2goType_caches _ _

theorem goSimpleTypeStep_caches (acc : GoEncoder × List Emit) (nm : String) :
    cachesEq (goSimpleTypeStep acc nm).1 acc.1 := by
  unfold goSimpleTypeStep
  split
  · exact cachesEq_refl _
  · split
    · exact cachesEq_trans (genValidator_caches _ _ _) (wsdl2goType_caches _ _)
    · split
      · exact foldl_caches unionMemberStep unionMemberStep_caches _ _
      · exact cachesEq_refl _

theorem goSimpleTypesLoop_caches (ge : GoEncoder) (names : List String) :
    cachesEq (goSimpleTypesLoop ge names).1 ge :=
  foldl_caches goSimpleTypeStep goSimpleTypeStep_caches names (ge, [])

theorem goComplexTypesLoop_ok_caches (fuel : Nat) (d : Definitions) :
    ∀ (l : List String) (ge ge1 : GoEncoder) (es : List Emit),
      goComplexTypesLoop fuel ge d l = .ok (ge1, es) → cachesEq ge1 ge := by
  intro l
  induction l with
  | nil =>
    intro ge ge1 es h
    unfold goComplexTypesLoop at h
    cases h
    exact cachesEq_refl _
  | cons nm rest ih =>
    intro ge ge1 es h
    unfold goComplexTypesLoop at h
    split at h
    · exact ih _ _ _ h
    · split at h
      · cases h
      · rename_i geA esA hA
        dsimp only at h
        split at h
        · cases h
        · rename_i geB esB hB
          cases h
          exact cachesEq_trans (ih _ _ _ hB) (genGoStruct_ok_caches hA)

theorem writeGoTypes_ok_caches {ge ge1 : GoEncoder} {d : Definitions}
    {es : List Emit} (h : writeGoTypes ge d = .ok (ge1, es)) : cachesEq ge1 ge := by
  unfold writeGoTypes at h
  dsimp only at h
  split at h
  · cases h
  · rename_i geB esB hB
    cases h
    exact cachesEq_trans (goComplexTypesLoop_ok_caches _ _ _ _ _ _ hB)
      (goSimpleTypesLoop_caches ge (sortedSimpleTypes ge))

theorem ifaceFuncsLoop_ok_caches :
    ∀ (l : List String) (ge ge1 : GoEncoder) (fs : List IfaceFunc),
      ifaceFuncsLoop ge l = .ok (ge1, fs) → cachesEq ge1 ge := by
  intro l
  induction l with
  | nil =>
    intro ge ge1 fs h
    unfold ifaceFuncsLoop at h
    cases h
    exact cachesEq_refl _
  | cons fn rest ih =>
    intro ge ge1 fs h
    unfold ifaceFuncsLoop at h
    split at h
    · exact ih _ _ _ h
    · rename_i op hop
      split at h
      · exact ih _ _ _ h
      · split at h
        · cases h
        · rename_i geA inP hA
          split at h
          · cases h
          · rename_i geB outP hB
            split at h
            · exact cachesEq_trans
                (cachesEq_trans (ih _ _ _ h) (outputParams_ok_caches hB))
                (inputParams_ok_caches hA)
            · dsimp only at h
              split at h
              · cases h
              · rename_i geC fsC hC
                cases h
                exact cachesEq_trans
                  (cachesEq_trans (ih _ _ _ hC) (outputParams_ok_caches hB))
                  (inputParams_ok_caches hA)

theorem writeInterfaceFuncs_ok_caches {ge ge1 : GoEncoder} {d : Definitions}
    {es : List Emit} (h : writeInterfaceFuncs ge d = .ok (ge1, es)) :
    cachesEq ge1 ge := by
  unfold writeInterfaceFuncs at h
  split at h
  · cases h
  · rename_i geA fs hA
    cases h
    exact ifaceFuncsLoop_ok_caches _ _ _ _ hA

theorem writePortType_caches (ge : GoEncoder) (d : Definitions) :
    cachesEq (writePortType ge d).1 ge := by
  unfold writePortType
  split
  · exact cachesEq_refl _
  · exact cachesEq_refl _

theorem goFuncsCont_caches (ge : GoEncoder) (d : Definitions) (op : Operation)
    (inP outP : List Parameter) :
    cachesEq (goFuncsCont ge d op inP outP).1 ge := by
  unfold goFuncsCont
  dsimp only
  split
  · exact writeSOAPFunc_caches _ _ _ _ _ _ _
  · exact cachesEq_trans ⟨rfl, rfl, rfl, rfl, rfl, rfl, rfl⟩
      (writeSOAPFunc_caches _ _ _ _ _ _ _)

/-- An operation with a declared output message that is absent from the
message cache makes `outputParams` fail with the error naming both. -/
theorem outputParams_missing {ge : GoEncoder} {op : Operation} {iom : IoMsg}
    (hout : op.output = some iom)
    (hmsg : mapLookup ge.messages (trimns iom.message) = none) :
    outputParams ge op = .error (outputMsgError op.name (trimns iom.message)) := by
  unfold outputParams
  rw [hout]
  dsimp only
  rw [hmsg]

/-- A lookup hit is one of the map's keys. -/
theorem mapLookup_some_mem_keys {α : Type} :
    ∀ {m : GoMap α} {k : String} {v : α},
      mapLookup m k = some v → k ∈ mapKeys m := by
  intro m
  induction m with
  | nil => intro k v h; simp [mapLookup] at h
  | cons p rest ih =>
    intro k v h
    obtain ⟨k', v'⟩ := p
    unfold mapLookup at h
    split at h
    · rename_i heq
      subst heq
      exact List.mem_cons_self _ _
    · exact List.mem_cons_of_mem _ (ih h)

/-- Sorting keeps membership. -/
theorem mem_sortStringsGo {a : String} {l : List String} (h : a ∈ l) :
    a ∈ sortStringsGo l :=
  ((List.perm_insertionSort _ l).mem_iff).mpr h

/-- A fold whose step keeps `funcs` and `funcnames` keeps them overall. -/
theorem foldl_funcs_inv {β : Type} (f : GoEncoder → β → GoEncoder)
    (hf : ∀ ge b, (f ge b).funcs = ge.funcs ∧ (f ge b).funcnames = ge.funcnames) :
    ∀ (l : List β) (ge : GoEncoder),
      (l.foldl f ge).funcs = ge.funcs ∧ (l.foldl f ge).funcnames = ge.funcnames := by
  intro l
  induction l with
  | nil => intro ge; exact ⟨rfl, rfl⟩
  | cons x xs ih =>
    intro ge
    exact ⟨(ih (f ge x)).1.trans (hf ge x).1, (ih (f ge x)).2.trans (hf ge x).2⟩

theorem cacheMessages_funcs_eq (ge : GoEncoder) (d : Definitions) :
    (cacheMessages ge d).funcs = ge.funcs ∧
      (cacheMessages ge d).funcnames = ge.funcnames := by
  unfold cacheMessages
  exact foldl_funcs_inv
    (fun ge v => { ge with messages := mapSet ge.messages v.name v })
    (fun ge v => ⟨rfl, rfl⟩) d.messages ge

theorem cacheSOAPOperations_funcs_eq (ge : GoEncoder) (d : Definitions) :
    (cacheSOAPOperations ge d).funcs = ge.funcs ∧
      (cacheSOAPOperations ge d).funcnames = ge.funcnames := by
  unfold cacheSOAPOperations
  exact foldl_funcs_inv
    (fun ge v => { ge with soapOps := mapSet ge.soapOps v.name v })
    (fun ge v => ⟨rfl, rfl⟩) d.binding.operations ge

theorem cacheFuncs_funcnames (ge : GoEncoder) (d : Definitions) :
    (cacheFuncs ge d).funcnames = sortStringsGo (mapKeys (cacheFuncs ge d).funcs) :=
  rfl

/-- After `buildCaches`, the name list driving the write loops is
exactly the sorted key set of the function cache. -/
theorem buildCaches_funcnames (d : Definitions) :
    (buildCaches d).funcnames = sortStringsGo (mapKeys (buildCaches d).funcs) := by
  unfold buildCaches
  rw [(cacheSOAPOperations_funcs_eq _ _).2, (cacheSOAPOperations_funcs_eq _ _).1,
    (cacheMessages_funcs_eq _ _).2, (cacheMessages_funcs_eq _ _).1]
  exact cacheFuncs_funcnames _ _

/-- The write loop of `writeGoFuncs` fails whenever some listed
operation's output message is missing from the message cache. -/
theorem goFuncsLoop_err (d : Definitions) (op : Operation) (iom : IoMsg)
    (hout : op.output = some iom) :
    ∀ (l : List String) (ge : GoEncoder),
      mapLookup ge.funcs op.name = some op →
      mapLookup ge.messages (trimns iom.message) = none →
      op.name ∈ l →
      ∃ e, goFuncsLoop ge d l = .error e := by
  intro l
  induction l with
  | nil => intro ge _ _ hmem; cases hmem
  | cons fn rest ih =>
    intro ge hfun hmsg hmem
    by_cases hfn : fn = op.name
    · subst hfn
      unfold goFuncsLoop
      rw [hfun]
      dsimp only
      split
      · exact ⟨_, rfl⟩
      · rename_i geA inP hin
        have hA := inputParams_ok_caches hin
        rw [outputParams_missing hout (by rw [hA.2.2.2.2.2.1]; exact hmsg)]
        exact ⟨_, rfl⟩
    · have hmem' : op.name ∈ rest := by
        rcases List.mem_cons.mp hmem with heq | h
        · exact absurd heq.symm hfn
        · exact h
      unfold goFuncsLoop
      split
      · exact ih ge hfun hmsg hmem'
      · rename_i op' hop'
        split
        · exact ⟨_, rfl⟩
        · rename_i geA inP hin
          have hA := inputParams_ok_caches hin
          split
          · exact ⟨_, rfl⟩
          · rename_i geB outP hob
            have hB := outputParams_ok_caches hob
            have hk := goFuncsCont_caches geB d op' inP outP
            obtain ⟨e, he⟩ := ih (goFuncsCont geB d op' inP outP).1
              (by rw [hk.2.2.2.1, hB.2.2.2.1, hA.2.2.2.1]; exact hfun)
              (by rw [hk.2.2.2.2.2.1, hB.2.2.2.2.2.1, hA.2.2.2.2.2.1]; exact hmsg)
              hmem'
            dsimp only
            rw [he]
            exact ⟨_, rfl⟩

/-- `writeGoFuncs` fails outright under the same conditions. -/
theorem writeGoFuncs_err (ge : GoEncoder) (d : Definitions) (op : Operation)
    (iom : IoMsg) (hout : op.output = some iom)
    (hfun : mapLookup ge.funcs op.name = some op)
    (hmsg : mapLookup ge.messages (trimns iom.message) = none)
    (hmem : op.name ∈ ge.funcnames) :
    ∃ e, writeGoFuncs ge d = .error e := by
  unfold writeGoFuncs
  split
  · exact ⟨_, rfl⟩
  · split
    · rename_i hlen
      rw [List.length_eq_zero.mp hlen] at hfun
      simp [mapLookup] at hfun
    · exact goFuncsLoop_err d op iom hout ge.funcnames ge hfun hmsg hmem

/-- The whole write pipeline fails: whichever branch runs, it reaches
`writeGoFuncs` with the caches intact, and everything before only stops
earlier on another error. -/
theorem encodeSteps_err (ge : GoEncoder) (d : Definitions) (op : Operation)
    (iom : IoMsg) (hout : op.output = some iom)
    (hfun : mapLookup ge.funcs op.name = some op)
    (hmsg : mapLookup ge.messages (trimns iom.message) = none)
    (hmem : op.name ∈ ge.funcnames) :
    ∃ e, encodeSteps ge d = .error e := by
  unfold encodeSteps
  split
  · split
    · exact ⟨_, rfl⟩
    · rename_i ge1 e1 hW
      have h1 := writeInterfaceFuncs_ok_caches hW
      split
      · exact ⟨_, rfl⟩
      · rename_i ge2 e2 hT
        have h2 := writeGoTypes_ok_caches hT
        dsimp only
        have hc : cachesEq (writePortType ge2 d).1 ge :=
          cachesEq_trans (cachesEq_trans (writePortType_caches ge2 d) h2) h1
        obtain ⟨e, he⟩ := writeGoFuncs_err (writePortType ge2 d).1 d op iom hout
          (by rw [hc.2.2.2.1]; exact hfun)
          (by rw [hc.2.2.2.2.2.1]; exact hmsg)
          (by rw [hc.2.2.2.2.1]; exact hmem)
        rw [he]
        exact ⟨_, rfl⟩
  · obtain ⟨e, he⟩ := writeGoFuncs_err ge d op iom hout hfun hmsg hmem
    rw [he]
    exact ⟨_, rfl⟩

/-- `encode` up to the header assembly fails when some cached
operation's output message is missing. -/
theorem encodeCore_err (d : Definitions) (op : Operation) (iom : IoMsg)
    (hop : mapLookup (buildCaches d).funcs op.name = some op)
    (hout : op.output = some iom)
    (hmsg : mapLookup (buildCaches d).messages (trimns iom.message) = none) :
    ∃ e, encodeCore d = .error e := by
  have hmem : op.name ∈ (buildCaches d).funcnames := by
    rw [buildCaches_funcnames]
    exact mem_sortStringsGo (mapLookup_some_mem_keys hop)
  obtain ⟨e, he⟩ := encodeSteps_err (buildCaches d) d op iom hout hop hmsg hmem
  unfold encodeCore
  dsimp only
  rw [he]
  exact ⟨e, rfl⟩

/-- C2: when an operation's output message name, after namespace-prefix
stripping, is absent from the cached message table, `outputParams`
fails with the error naming both the operation and the missing message,
the whole `encode` run aborts with an error, and the writer receives
nothing (no formatter call either): the output is buffered and only
copied out on success. -/
theorem C2_theorem (f : Fetch) (d0 : Definitions) (st : ImportState)
    (d : Definitions) (op : Operation) (iom : IoMsg)
    (himp : importPartsE f (unionSchemasData d0 d0.schema) ImportState.empty
      = (st, .ok d))
    (hop : mapLookup (buildCaches d).funcs op.name = some op)
    (hout : op.output = some iom)
    (hmsg : mapLookup (buildCaches d).messages (trimns iom.message) = none) :
    outputParams (buildCaches d) op =
      .error ("operation \"" ++ op.name ++ "\" wants output message \"" ++
        trimns iom.message ++ "\" but it's not defined") ∧
    ∃ e, encodeE f d0 = .error e ∧
      EncodeTop f (some d0) = ⟨[], false, some e⟩ := by
  constructor
  · exact outputParams_missing hout hmsg
  · obtain ⟨e, he⟩ := encodeCore_err d op iom hop hout hmsg
    refine ⟨e, ?_, ?_⟩
    · unfold encodeE
      dsimp only
      rw [himp]
      exact he
    · unfold EncodeTop encodeFinish encodeE
      dsimp only
      rw [himp]
      dsimp only
      rw [he]

/-- Fixture: an operation whose output message is never declared. -/
def opPing : Operation := ⟨"Ping", "", none, some ⟨"tns:PingResponse"⟩⟩

/-- Fixture: a self-contained document (no imports) holding only
`opPing` and no messages at all. -/
def defnPing : Definitions :=
  ⟨"", "", [], [], Schema.empty, [], ⟨"PingPort", [opPing]⟩, ⟨"", "", []⟩⟩

/-- Fixture: a transport that is never consulted. -/
def fetchC2 : Fetch := fun _ => .error "unreachable"

/-- C2 (witness): running the generator on `defnPing` fails with the
error naming `Ping` and `PingResponse`, and nothing reaches the
writer. -/
theorem C2_witness :
    outputParams (buildCaches (unionSchemasData defnPing defnPing.schema)) opPing =
      .error
        "operation \"Ping\" wants output message \"PingResponse\" but it's not defined" ∧
    ∃ e, encodeE fetchC2 defnPing = .error e ∧
      EncodeTop fetchC2 (some defnPing) = ⟨[], false, some e⟩ :=
  C2_theorem fetchC2 defnPing ImportState.empty
    (unionSchemasData defnPing defnPing.schema) opPing ⟨"tns:PingResponse"⟩
    rfl rfl rfl rfl

/-- C10: `Encode` on a `nil` document returns no error and writes
nothing; a run whose buffer stays empty also returns `nil` without
invoking the parser/gofmt stage or writing; otherwise `Encode` is
exactly the finish of the `encode` pipeline. -/
theorem C10_theorem :
    (∀ f : Fetch, EncodeTop f none = ⟨[], false, none⟩) ∧
    (∀ ge : GoEncoder, encodeFinish (.ok (ge, [])) = ⟨[], false, none⟩) ∧
    (∀ (f : Fetch) (d : Definitions),
      EncodeTop f (some d) = encodeFinish (encodeE f d)) :=
  ⟨fun _ => rfl, fun _ => rfl, fun _ _ => rfl⟩

/-! ## Import-phase invariant: each location fetched at most once -/

theorem mapLookup_mapSet_self {α : Type} (m : GoMap α) (k : String) (v : α) :
    mapLookup (mapSet m k v) k = some v := by
  induction m with
  | nil => simp [mapSet, mapLookup]
  | cons p rest ih =>
    obtain ⟨k', v'⟩ := p
    by_cases hk : k' = k
    · simp [mapSet, mapLookup, hk]
    · simp [mapSet, mapLookup, hk, ih]

theorem mapLookup_mapSet_ne {α : Type} (m : GoMap α) {k u : String}
    (hne : k ≠ u) (v : α) : mapLookup (mapSet m k v) u = mapLookup m u := by
  induction m with
  | nil => simp [mapSet, mapLookup, hne]
  | cons p rest ih =>
    obtain ⟨k', v'⟩ := p
    by_cases hk : k' = k
    · subst hk
      simp [mapSet, mapLookup, hne]
    · simp [mapSet, mapLookup, hk, ih]

theorem mapMem_mapSet_self {α : Type} (m : GoMap α) (k : String) (v : α) :
    mapMem (mapSet m k v) k = true := by
  unfold mapMem
  rw [mapLookup_mapSet_self]
  rfl

theorem mapMem_mapSet_of_mem {α : Type} {m : GoMap α} {u : String}
    (h : mapMem m u = true) (k : String) (v : α) :
    mapMem (mapSet m k v) u = true := by
  by_cases hk : k = u
  · subst hk
    exact mapMem_mapSet_self m k v
  · unfold mapMem
    rw [mapLookup_mapSet_ne m hk v]
    exact h

/-- The import-phase invariant: no location was ever fetched twice, and
every fetched location is recorded in the `importedSchemas` memo (so a
later attempt will be skipped). -/
def StInv (st : ImportState) : Prop :=
  st.trace.Nodup ∧ ∀ u ∈ st.trace, mapMem st.imported u = true

theorem StInv_empty : StInv ImportState.empty :=
  ⟨List.nodup_nil, fun u h => absurd h (List.not_mem_nil u)⟩

theorem trace_snoc_nodup {st : ImportState} (h : StInv st) {url : String}
    (hmem : mapMem st.imported url = false) :
    (st.trace ++ [url]).Nodup := by
  refine List.nodup_append.mpr ⟨h.1, List.nodup_singleton _, ?_⟩
  intro a ha hb
  rw [List.mem_singleton] at hb
  subst hb
  have := h.2 a ha
  rw [hmem] at this
  cases this

theorem importRemoteRaw_inv (f : Fetch) (url : String) (st : ImportState)
    (h : StInv st) :
    (importRemoteRaw f url st).1.trace.Nodup ∧
    ∀ r, (importRemoteRaw f url st).2 = .ok r →
      StInv (importRemoteRaw f url st).1 := by
  unfold importRemoteRaw
  split
  · exact ⟨h.1, fun r _ => h⟩
  · rename_i hcond
    have hmem : mapMem st.imported url = false := Bool.eq_false_iff.mpr hcond
    split
    · dsimp only
      exact ⟨trace_snoc_nodup h hmem, fun r hr => by cases hr⟩
    · dsimp only
      refine ⟨trace_snoc_nodup h hmem, fun r _ => ⟨trace_snoc_nodup h hmem, ?_⟩⟩
      intro u hu
      rcases List.mem_append.mp hu with h1 | h1
      · exact mapMem_mapSet_of_mem (h.2 u h1) url true
      · rw [List.mem_singleton] at h1
        subst h1
        exact mapMem_mapSet_self _ _ _

theorem importRemoteSchema_inv (f : Fetch) (url : String) (st : ImportState)
    (h : StInv st) :
    (importRemoteSchema f url st).1.trace.Nodup ∧
    ∀ r, (importRemoteSchema f url st).2 = .ok r →
      StInv (importRemoteSchema f url st).1 := by
  have hr := importRemoteRaw_inv f url st h
  unfold importRemoteSchema
  split
  · rename_i st' e heq
    rw [heq] at hr
    exact ⟨hr.1, fun r hr' => by simp at hr'⟩
  · rename_i st' heq
    rw [heq] at hr
    exact ⟨hr.1, fun r _ => hr.2 none rfl⟩
  · rename_i st' s heq
    rw [heq] at hr
    exact ⟨hr.1, fun r _ => hr.2 _ rfl⟩
  · rename_i st' x heq
    rw [heq] at hr
    exact ⟨hr.1, fun r hr' => by simp at hr'⟩

theorem importRootLoop_inv (f : Fetch) :
    ∀ (imps : List RootImport) (d : Definitions) (st : ImportState),
      StInv st →
      (importRootLoop f d st imps).1.trace.Nodup ∧
      ∀ r, (importRootLoop f d st imps).2 = .ok r →
        StInv (importRootLoop f d st imps).1 := by
  intro imps
  induction imps with
  | nil =>
    intro d st h
    exact ⟨h.1, fun r _ => h⟩
  | cons imp rest ih =>
    intro d st h
    unfold importRootLoop
    split
    · exact ih d st h
    · have hr := importRemoteRaw_inv f imp.location st h
      split
      · rename_i st' e heq
        rw [heq] at hr
        exact ⟨hr.1, fun r hr' => by simp at hr'⟩
      · rename_i st' heq
        rw [heq] at hr
        exact ih d st' (hr.2 none rfl)
      · rename_i st' d2 heq
        rw [heq] at hr
        exact ih (mergeDefs d d2) st' (hr.2 _ rfl)
      · rename_i st' x heq
        rw [heq] at hr
        exact ⟨hr.1, fun r hr' => by simp at hr'⟩

theorem importSchemaInner_inv (f : Fetch) :
    ∀ (imps : List SchemaImport) (d : Definitions) (st : ImportState),
      StInv st →
      (importSchemaInner f d st imps).1.trace.Nodup ∧
      ∀ r, (importSchemaInner f d st imps).2 = .ok r →
        StInv (importSchemaInner f d st imps).1 := by
  intro imps
  induction imps with
  | nil =>
    intro d st h
    exact ⟨h.1, fun r _ => h⟩
  | cons i rest ih =>
    intro d st h
    unfold importSchemaInner
    have hr := importRemoteSchema_inv f i.location st h
    split
    · rename_i st' e heq
      rw [heq] at hr
      exact ⟨hr.1, fun r hr' => by simp at hr'⟩
    · rename_i st' osc heq
      rw [heq] at hr
      exact ih _ st' (hr.2 osc rfl)

theorem importSchemaOuter_inv (f : Fetch) :
    ∀ (imps : List SchemaImport) (d : Definitions) (st : ImportState),
      StInv st →
      (importSchemaOuter f d st imps).1.trace.Nodup ∧
      ∀ r, (importSchemaOuter f d st imps).2 = .ok r →
        StInv (importSchemaOuter f d st imps).1 := by
  intro imps
  induction imps with
  | nil =>
    intro d st h
    exact ⟨h.1, fun r _ => h⟩
  | cons imp rest ih =>
    intro d st h
    unfold importSchemaOuter
    split
    · exact ih d st h
    · have hr := importRemoteSchema_inv f imp.location st h
      split
      · rename_i st' e heq
        rw [heq] at hr
        exact ⟨hr.1, fun r hr' => by simp at hr'⟩
      · rename_i st' osc heq
        rw [heq] at hr
        have hi := importSchemaInner_inv f (osc.getD Schema.empty).imports
          (unionSchemasData d (osc.getD Schema.empty)) st' (hr.2 osc rfl)
        dsimp only
        split
        · rename_i st'' e heq2
          rw [heq2] at hi
          exact hi
        · rename_i st'' d' heq2
          rw [heq2] at hi
          exact ih d' st'' (hi.2 d' rfl)

theorem importPartsE_inv (f : Fetch) (d : Definitions) (st : ImportState)
    (h : StInv st) :
    (importPartsE f d st).1.trace.Nodup ∧
    ∀ r, (importPartsE f d st).2 = .ok r → StInv (importPartsE f d st).1 := by
  have hroot := importRootLoop_inv f d.imports d st h
  unfold importPartsE
  split
  · rename_i st' e heq
    unfold importRootE at heq
    rw [heq] at hroot
    exact hroot
  · rename_i st' d' heq
    unfold importRootE at heq
    rw [heq] at hroot
    have hout := importSchemaOuter_inv f d'.schema.imports d' st' (hroot.2 d' rfl)
    unfold importSchemaE
    exact hout

/-- C4: each location URL is fetched at most once across a whole import
resolution (the run's fetch trace has no duplicates), because the
visited-locations set is consulted before fetching: a location present
in `importedSchemas` is skipped without any transport call. -/
theorem C4_theorem (f : Fetch) (d : Definitions) :
    ((importPartsE f d ImportState.empty).1).trace.Nodup ∧
    ∀ (url : String) (st : ImportState), mapMem st.imported url = true →
      importRemoteRaw f url st = (st, .ok none) := by
  constructor
  · exact (importPartsE_inv f d ImportState.empty StInv_empty).1
  · intro url st h
    unfold importRemoteRaw
    rw [if_pos h]

/-- Fixture: the remote complex type delivered by schema `B`. -/
def ctBT : ComplexType := .mk "BT" false "" [] none none [] ""

/-- Fixture: schema `B`, which re-imports the root document's own
location `ROOT`. -/
def schemaB : Schema := ⟨"urn:b", [], [⟨"", "ROOT"⟩], [], [ctBT], []⟩

/-- Fixture: schema `B` with the cyclic back-reference omitted. -/
def schemaBAcyc : Schema := ⟨"urn:b", [], [], [], [ctBT], []⟩

/-- Fixture: the root document, served at location `ROOT`; its schema
has one import, of location `B`. -/
def rootDefs : Definitions :=
  ⟨"", "", [], [], ⟨"", [], [⟨"", "B"⟩], [], [], []⟩, [], ⟨"", []⟩, ⟨"", "", []⟩⟩

/-- Fixture: transport of the cyclic world. -/
def fetchCyc : Fetch := fun url =>
  if url = "B" then .ok (.schemaDoc schemaB)
  else if url = "ROOT" then .ok (.defsDoc rootDefs)
  else .error "404"

/-- Fixture: transport of the world without the back-reference. -/
def fetchAcyc : Fetch := fun url =>
  if url = "B" then .ok (.schemaDoc schemaBAcyc)
  else if url = "ROOT" then .ok (.defsDoc rootDefs)
  else .error "404"

/-- The error of an import run, if any. -/
def importErrOf (p : ImportState × Except String Definitions) : Option String :=
  match p.2 with
  | .error e => some e
  | .ok _ => none

/-- The unified complex type names of a successful import run. -/
def importTypeNames (p : ImportState × Except String Definitions) :
    Option (List String) :=
  match p.2 with
  | .error _ => none
  | .ok d => some (d.schema.complexTypes.map ComplexType.name)

/-- C4 (counterexample): with the cyclic back-reference to the root's
own location, the run does not produce the same unified type set as
without it — it produces no type set at all.  The root's location is
never recorded in `importedSchemas` (the root was not fetched through
`importRemote`), so the back-reference is fetched and the root document
fails to decode as a schema. -/
theorem C4_counterexample :
    importErrOf (importPartsE fetchCyc rootDefs ImportState.empty) =
      some "expected element type <schema> but have <definitions>" ∧
    (importPartsE fetchCyc rootDefs ImportState.empty).1.trace = ["B", "ROOT"] ∧
    importTypeNames (importPartsE fetchAcyc rootDefs ImportState.empty) =
      some ["BT"] ∧
    importTypeNames (importPartsE fetchCyc rootDefs ImportState.empty) = none :=
  ⟨rfl, rfl, rfl, rfl⟩

/-- C4 (witness): the trace of the cyclic run has no duplicates, and a
memoized location is skipped without a transport call. -/
theorem C4_witness :
    ((importPartsE fetchCyc rootDefs ImportState.empty).1).trace.Nodup ∧
    importRemoteRaw fetchCyc "B" ⟨[("B", true)], ["B"]⟩ =
      (⟨[("B", true)], ["B"]⟩, .ok none) :=
  ⟨(C4_theorem fetchCyc rootDefs).1,
    (C4_theorem fetchCyc rootDefs).2 "B" ⟨[("B", true)], ["B"]⟩ rfl⟩

end Wsdl2go
